import Mathlib

/-!
Verification development for the AIR-DML compiler front end
(`src/parser/new/{tokens,lexer,parser,ast,transformer}.ts` and
`src/parser/new/index.ts`): a shallow embedding of the four-stage pipeline
tokenizer → recursive-descent parser → AST-to-diagram lowering →
diagram-to-text serializer, followed by theorems about the pipeline.

Modelling conventions:
* JS strings are modelled by `String` / `List Char`; positions and offsets
  by `Nat`.
* JS numeric attribute values (`pos_x`, `width`, …) are carried through the
  pipeline untouched and only printed back; they are modelled by their
  decimal literal text (`NumLit := String`).  No property proved here
  depends on float arithmetic.
* Optional TS fields are `Option`; JS truthiness on optional strings
  (`if (x)`) is `jsTruthy`, and `a || b` on strings is `jsOr`.
* The mutable lexer/parser cursor objects are modelled by explicit state
  records; `throw`/`catch` of `ParseError` is modelled by `Except` carrying
  the state at throw time (the TS object keeps its mutated state when an
  exception unwinds).
* Loops are modelled by fuel recursion so that the kernel can evaluate
  concrete runs.  Every loop in the source advances its cursor on every
  iteration, so the fuel passed at each call site (input length + 1, resp.
  2·tokens+2) is never exhausted; for the lexer this is proved below
  (`scanToken_progress`, exit lemmas for each loop).
-/

set_option maxHeartbeats 4000000

namespace AirDML

/-- `tokens.ts` / `SourcePosition`: 1-indexed line and column, 0-indexed offset. -/
structure SourcePosition where
  line : Nat
  column : Nat
  offset : Nat
deriving DecidableEq, Repr

/-- `tokens.ts` / `TokenType`. -/
inductive TokenType where
  | PROJECT | TABLE | AREA | REF | NOTE | INDEXES | COMMON_COLUMNS
  | PK | FK | UNIQUE | NOT | NULL | INCREMENT | DEFAULT
  | ALIAS | POS_X | POS_Y | WIDTH | HEIGHT | COLOR | SWAP_EDGE | DATABASE_TYPE
  | LABEL_HORIZONTAL | LABEL_VERTICAL | NAME
  | IDENTIFIER | STRING | SINGLE_STRING | BACKTICK_STRING | NUMBER
  | LBRACE | RBRACE | LBRACKET | RBRACKET | LPAREN | RPAREN | COLON | COMMA | DOT
  | REF_GT | REF_LT | REF_DASH | REF_LTGT | REF_TILDE
  | LINE_COMMENT | NEWLINE | EOF
deriving DecidableEq, Repr

/-- `tokens.ts` / `Token` (`end` is a reserved word in Lean, renamed `endPos`). -/
structure Token where
  type : TokenType
  value : String
  start : SourcePosition
  endPos : SourcePosition
deriving DecidableEq, Repr

/-- `tokens.ts` / `KEYWORDS` (case-insensitive keyword table). -/
def KEYWORDS : List (String × TokenType) :=
  [("project", .PROJECT), ("table", .TABLE), ("area", .AREA), ("ref", .REF),
   ("note", .NOTE), ("indexes", .INDEXES), ("commoncolumns", .COMMON_COLUMNS),
   ("pk", .PK), ("fk", .FK), ("unique", .UNIQUE), ("not", .NOT), ("null", .NULL),
   ("increment", .INCREMENT), ("default", .DEFAULT),
   ("alias", .ALIAS), ("pos_x", .POS_X), ("pos_y", .POS_Y), ("width", .WIDTH),
   ("height", .HEIGHT), ("color", .COLOR), ("swap_edge", .SWAP_EDGE),
   ("swapedge", .SWAP_EDGE), ("database_type", .DATABASE_TYPE),
   ("labelhorizontal", .LABEL_HORIZONTAL), ("label_horizontal", .LABEL_HORIZONTAL),
   ("labelvertical", .LABEL_VERTICAL), ("label_vertical", .LABEL_VERTICAL),
   ("name", .NAME)]

/-- JS `toLowerCase`, which agrees with per-character ASCII lowering on every
character this pipeline feeds it (identifier tokens: ASCII letters, digits,
`_`, caseless CJK/kana).  Defined by a structural char map so the kernel can
evaluate it (`String.toLower` recurses on byte positions). -/
def toLowerStr (s : String) : String := (s.data.map Char.toLower).asString

/-- `tokens.ts` / `matchKeyword`.  (`toLowerCase` agrees with ASCII lowering on
every character an identifier token can contain: ASCII letters, digits, `_`,
and CJK/kana characters, which are caseless.) -/
def matchKeyword (value : String) : TokenType :=
  (KEYWORDS.lookup (toLowerStr value)).getD TokenType.IDENTIFIER

/-- Single-quote character (codepoint 39), named to keep literals simple. -/
def squote : Char := Char.ofNat 39

/-- Backtick character (codepoint 96). -/
def backquote : Char := Char.ofNat 96

-- ===========================================================================
-- lexer.ts
-- ===========================================================================

/-- `lexer.ts` / `LexerError` (fields `message`, `position`, `source`). -/
structure LexError where
  msg : String
  position : SourcePosition
  source : Option String
deriving DecidableEq, Repr

/-- The `Error.message` of a `LexerError`: the constructor prefixes
`[line:column]` to the raw message. -/
def LexError.message (e : LexError) : String :=
  "[" ++ toString e.position.line ++ ":" ++ toString e.position.column ++ "] " ++ e.msg

/-- Mutable cursor state of `Lexer` (fields `pos`, `line`, `column`, `tokens`). -/
structure LexSt where
  pos : Nat
  line : Nat
  column : Nat
  tokens : List Token
deriving DecidableEq, Repr

namespace Lexer

variable (src : List Char)

/-- `Lexer.peek` (returns the empty string at end of input, modelled `none`). -/
def peekCh (st : LexSt) : Option Char := src.get? st.pos

/-- `Lexer.peekNext`. -/
def peekNextCh (st : LexSt) : Option Char := src.get? (st.pos + 1)

/-- `Lexer.isAtEnd`. -/
def isAtEnd (st : LexSt) : Bool := decide (src.length ≤ st.pos)

/-- State effect of `Lexer.advance` (the returned character is read with
`peekCh` at the call site). -/
def bump (st : LexSt) : LexSt := { st with pos := st.pos + 1, column := st.column + 1 }

/-- `Lexer.currentPosition`. -/
def currentPosition (st : LexSt) : SourcePosition := ⟨st.line, st.column, st.pos⟩

/-- `Lexer.addToken`; every call site passes `start` explicitly (the TS default
`start ?? currentPosition` is applied at the EOF call site). -/
def addToken (type : TokenType) (value : String) (start : SourcePosition) (st : LexSt) : LexSt :=
  { st with tokens := st.tokens ++ [{ type := type, value := value, start := start,
                                      endPos := currentPosition st }] }

/-- `Lexer.isDigit` on an optional character (TS takes `string | undefined`). -/
def isDigitO : Option Char → Bool
  | some c => decide (48 ≤ c.toNat) && decide (c.toNat ≤ 57)
  | none => false

/-- `Lexer.isDigit` on a present character. -/
def isDigitC (c : Char) : Bool := isDigitO (some c)

/-- `Lexer.isHexDigit`. -/
def isHexDigitC (c : Char) : Bool :=
  (decide (48 ≤ c.toNat) && decide (c.toNat ≤ 57)) ||
  (decide (65 ≤ c.toNat) && decide (c.toNat ≤ 70)) ||
  (decide (97 ≤ c.toNat) && decide (c.toNat ≤ 102))

/-- `Lexer.isIdentifierStart`: ASCII letters, `_`, hiragana, katakana,
CJK unified ideographs, CJK extension A. -/
def isIdentifierStartC (c : Char) : Bool :=
  let code := c.toNat
  (decide (65 ≤ code) && decide (code ≤ 90)) ||
  (decide (97 ≤ code) && decide (code ≤ 122)) ||
  decide (code = 95) ||
  (decide (0x3040 ≤ code) && decide (code ≤ 0x309F)) ||
  (decide (0x30A0 ≤ code) && decide (code ≤ 0x30FF)) ||
  (decide (0x4E00 ≤ code) && decide (code ≤ 0x9FFF)) ||
  (decide (0x3400 ≤ code) && decide (code ≤ 0x4DBF))

/-- `Lexer.isIdentifierPart`: identifier start or ASCII digit. -/
def isIdentifierPartC (c : Char) : Bool :=
  isIdentifierStartC c || (decide (48 ≤ c.toNat) && decide (c.toNat ≤ 57))

/-- `Lexer.skipWhitespace` (space, tab, carriage return skipped; newline also
advances the line counter and resets the column). -/
def skipWhitespace : Nat → LexSt → LexSt
  | 0, st => st
  | fuel + 1, st =>
    match peekCh src st with
    | none => st
    | some c =>
      if c = ' ' || c = '\t' || c = '\r' then skipWhitespace fuel (bump st)
      else if c = '\n' then
        skipWhitespace fuel { st with pos := st.pos + 1, line := st.line + 1, column := 1 }
      else st

/-- Loop of `Lexer.scanLineComment`: collect until newline or end. -/
def commentLoop : Nat → List Char → LexSt → List Char × LexSt
  | 0, acc, st => (acc, st)
  | fuel + 1, acc, st =>
    match peekCh src st with
    | none => (acc, st)
    | some c => if c = '\n' then (acc, st) else commentLoop fuel (acc ++ [c]) (bump st)

/-- `Lexer.scanLineComment` (the collected text is `trim`med). -/
def scanLineComment (fuel : Nat) (st : LexSt) : LexSt :=
  let start := currentPosition st
  let st1 := bump (bump st)
  let r := commentLoop src fuel [] st1
  addToken .LINE_COMMENT r.1.asString.trim start r.2

/-- Loop of `Lexer.scanString`: collect until the (unescaped) closing quote or
end of input, handling `\n \t \r \\ \" \x27 \x60` escapes and multi-line
strings.  On a newline the TS code sets `column = 1` and then `advance()`
increments it, leaving column 2. -/
def stringLoop (quote : Char) : Nat → List Char → LexSt → List Char × LexSt
  | 0, acc, st => (acc, st)
  | fuel + 1, acc, st =>
    match peekCh src st with
    | none => (acc, st)
    | some c =>
      if c = quote then (acc, st)
      else if c = '\n' then
        stringLoop quote fuel (acc ++ [c])
          { st with pos := st.pos + 1, line := st.line + 1, column := 2 }
      else if c = '\\' then
        let st1 := bump st
        match peekCh src st1 with
        | none => stringLoop quote fuel acc st1
        | some e =>
          let ec := if e = 'n' then '\n' else if e = 't' then '\t'
                    else if e = 'r' then '\r' else e
          stringLoop quote fuel (acc ++ [ec]) (bump st1)
      else stringLoop quote fuel (acc ++ [c]) (bump st)

/-- `source.slice(a, b)` as a string. -/
def sliceStr (a b : Nat) : String := ((src.drop a).take (b - a)).asString

/-- `Lexer.scanString`: fatal error when the input ends before the closing
quote. -/
def scanString (fuel : Nat) (quote : Char) (tokenType : TokenType) (st : LexSt) :
    Except LexError LexSt :=
  let start := currentPosition st
  let r := stringLoop src quote fuel [] (bump st)
  if (isAtEnd src r.2) = true then
    .error ⟨"文字列が閉じられていません", start,
            some (sliceStr src start.offset (min (start.offset + 20) src.length))⟩
  else
    .ok (addToken tokenType r.1.asString start (bump r.2))

/-- Digit-collecting loop shared by the integer and decimal parts of
`Lexer.scanNumber`. -/
def digitsLoop : Nat → List Char → LexSt → List Char × LexSt
  | 0, acc, st => (acc, st)
  | fuel + 1, acc, st =>
    match peekCh src st with
    | none => (acc, st)
    | some c => if isDigitC c then digitsLoop fuel (acc ++ [c]) (bump st) else (acc, st)

/-- Integer part, optional `.digits`, and token emission of
`Lexer.scanNumber`; `sign` is the already-consumed optional minus sign. -/
def scanNumberBody (fuel : Nat) (start : SourcePosition) (sign : List Char)
    (st1 : LexSt) : LexSt :=
  let r1 := digitsLoop src fuel sign st1
  if (peekCh src r1.2 == some '.') && isDigitO (peekNextCh src r1.2) then
    let r2 := digitsLoop src fuel (r1.1 ++ ['.']) (bump r1.2)
    addToken .NUMBER r2.1.asString start r2.2
  else
    addToken .NUMBER r1.1.asString start r1.2

/-- `Lexer.scanNumber`: optional sign, integer part, optional `.digits`. -/
def scanNumber (fuel : Nat) (st : LexSt) : LexSt :=
  let start := currentPosition st
  if peekCh src st == some '-' then scanNumberBody src fuel start ['-'] (bump st)
  else scanNumberBody src fuel start [] st

/-- Identifier-collecting loop of `Lexer.scanIdentifier`. -/
def identLoop : Nat → List Char → LexSt → List Char × LexSt
  | 0, acc, st => (acc, st)
  | fuel + 1, acc, st =>
    match peekCh src st with
    | none => (acc, st)
    | some c =>
      if isIdentifierPartC c then identLoop fuel (acc ++ [c]) (bump st) else (acc, st)

/-- `Lexer.scanIdentifier`. -/
def scanIdentifier (fuel : Nat) (st : LexSt) : LexSt :=
  let start := currentPosition st
  let r := identLoop src fuel [] st
  addToken (matchKeyword r.1.asString) r.1.asString start r.2

/-- Hex-digit loop of `Lexer.scanColorLiteral`. -/
def hexLoop : Nat → List Char → LexSt → List Char × LexSt
  | 0, acc, st => (acc, st)
  | fuel + 1, acc, st =>
    match peekCh src st with
    | none => (acc, st)
    | some c => if isHexDigitC c then hexLoop fuel (acc ++ [c]) (bump st) else (acc, st)

/-- `Lexer.scanColorLiteral`: `#` followed by exactly 3 or 6 hex digits,
emitted as a STRING token; any other length is a fatal error. -/
def scanColorLiteral (fuel : Nat) (start : SourcePosition) (st : LexSt) :
    Except LexError LexSt :=
  let r := hexLoop src fuel [] st
  let value : List Char := '#' :: r.1
  if value.length ≠ 4 ∧ value.length ≠ 7 then
    .error ⟨"無効な色形式です: " ++ String.singleton squote ++ value.asString ++
            String.singleton squote ++ "。#RGB または #RRGGBB の形式で指定してください",
            start, none⟩
  else
    .ok (addToken .STRING value.asString start r.2)

/-- `Lexer.scanSymbol`: single- and double-character symbols; `<` looks one
character ahead for `<>`; `-` followed by a digit is put back (`pos--`,
`column--`) and rescanned as a number; `#` starts a color literal; anything
else is a fatal error. -/
def scanSymbol (fuel : Nat) (st : LexSt) : Except LexError LexSt :=
  let start := currentPosition st
  match peekCh src st with
  | none => .ok st
  | some ch =>
    let st1 := bump st
    if ch = '{' then .ok (addToken .LBRACE (String.singleton ch) start st1)
    else if ch = '}' then .ok (addToken .RBRACE (String.singleton ch) start st1)
    else if ch = '[' then .ok (addToken .LBRACKET (String.singleton ch) start st1)
    else if ch = ']' then .ok (addToken .RBRACKET (String.singleton ch) start st1)
    else if ch = '(' then .ok (addToken .LPAREN (String.singleton ch) start st1)
    else if ch = ')' then .ok (addToken .RPAREN (String.singleton ch) start st1)
    else if ch = ':' then .ok (addToken .COLON (String.singleton ch) start st1)
    else if ch = ',' then .ok (addToken .COMMA (String.singleton ch) start st1)
    else if ch = '.' then .ok (addToken .DOT (String.singleton ch) start st1)
    else if ch = '>' then .ok (addToken .REF_GT (String.singleton ch) start st1)
    else if ch = '<' then
      if peekCh src st1 == some '>' then .ok (addToken .REF_LTGT "<>" start (bump st1))
      else .ok (addToken .REF_LT (String.singleton ch) start st1)
    else if ch = '-' then
      if isDigitO (peekCh src st1) then
        .ok (scanNumber src fuel { st1 with pos := st1.pos - 1, column := st1.column - 1 })
      else .ok (addToken .REF_DASH (String.singleton ch) start st1)
    else if ch = '~' then .ok (addToken .REF_TILDE (String.singleton ch) start st1)
    else if ch = '#' then scanColorLiteral src fuel start st1
    else
      .error ⟨"予期しない文字です: " ++ String.singleton squote ++ String.singleton ch ++
              String.singleton squote, start, none⟩

/-- `Lexer.scanToken`: skip whitespace, then dispatch on the current
character (comment, string literals, numbers, identifiers, symbols). -/
def scanToken (fuel : Nat) (st : LexSt) : Except LexError LexSt :=
  let st := skipWhitespace src fuel st
  match peekCh src st with
  | none => .ok st
  | some ch =>
    if ch = '/' && (peekNextCh src st == some '/') then .ok (scanLineComment src fuel st)
    else if ch = '"' then scanString src fuel '"' .STRING st
    else if ch = squote then scanString src fuel squote .SINGLE_STRING st
    else if ch = backquote then scanString src fuel backquote .BACKTICK_STRING st
    else if isDigitC ch || (ch = '-' && isDigitO (peekNextCh src st)) then
      .ok (scanNumber src fuel st)
    else if isIdentifierStartC ch then .ok (scanIdentifier src fuel st)
    else scanSymbol src fuel st

/-- Main loop of `Lexer.tokenize` (each `scanToken` call receives fresh inner
fuel `src.length + 1`, which its loops can never exhaust). -/
def tokenizeLoop : Nat → LexSt → Except LexError LexSt
  | 0, st => .ok st
  | fuel + 1, st =>
    if src.length ≤ st.pos then .ok st
    else
      match scanToken src (src.length + 1) st with
      | .error e => .error e
      | .ok st' => tokenizeLoop fuel st'

end Lexer

/-- `Lexer.tokenize`: scan the whole input, then append the EOF token (whose
`start` defaults to the current position). -/
def tokenize (source : String) : Except LexError (List Token) :=
  let src := source.data
  match Lexer.tokenizeLoop src (src.length + 1) ⟨0, 1, 1, []⟩ with
  | .error e => .error e
  | .ok st => .ok (Lexer.addToken .EOF "" (Lexer.currentPosition st) st).tokens

-- ===========================================================================
-- ast.ts
-- ===========================================================================

/-- JS numeric attribute value, modelled by its decimal literal text (see the
file header); produced by `parseNumberValue` (TS `parseFloat`) and printed
back verbatim by the serializer. -/
abbrev NumLit := String

/-- `ast.ts` / `SourceRange`. -/
structure SourceRange where
  start : SourcePosition
  endPos : SourcePosition
deriving DecidableEq, Repr

/-- `ast.ts` / `ProjectSettings`. -/
structure ProjectSettings where
  databaseType : Option String := none
  note : Option String := none
deriving DecidableEq, Repr

/-- `ast.ts` / `ProjectNode`. -/
structure ProjectNode where
  range : SourceRange
  name : String
  settings : ProjectSettings
  leadingComments : Option (List String) := none
deriving DecidableEq, Repr

/-- `ast.ts` / `TableSettings`. -/
structure TableSettings where
  aliasName : Option String := none  -- TS field `alias` (reserved word in Lean)
  posX : Option NumLit := none
  posY : Option NumLit := none
  color : Option String := none
deriving DecidableEq, Repr

/-- `parser.ts` / `parseDefaultValue` result tag: `'string' | 'function' | 'value'`. -/
inductive DefaultKind where
  | str | fn | val
deriving DecidableEq, Repr

/-- `ast.ts` / `ColumnConstraints`. -/
structure ColumnConstraints where
  pk : Option Bool := none
  fk : Option Bool := none
  unique : Option Bool := none
  notNull : Option Bool := none
  increment : Option Bool := none
  default : Option String := none
  defaultType : Option DefaultKind := none
  aliasName : Option String := none  -- TS field `alias` (reserved word in Lean)
  note : Option String := none
deriving DecidableEq, Repr

/-- `ast.ts` / `ColumnNode`. -/
structure ColumnNode where
  range : SourceRange
  name : String
  type : String
  typeParams : Option String := none
  constraints : ColumnConstraints
  leadingComments : Option (List String) := none
deriving DecidableEq, Repr

/-- `ast.ts` / `IndexSettings`. -/
structure IndexSettings where
  unique : Option Bool := none
  pk : Option Bool := none
  name : Option String := none
deriving DecidableEq, Repr

/-- `ast.ts` / `IndexNode`. -/
structure IndexNode where
  range : SourceRange
  columns : List String
  settings : IndexSettings
  leadingComments : Option (List String) := none
deriving DecidableEq, Repr

/-- `ast.ts` / `TableNode`. -/
structure TableNode where
  range : SourceRange
  name : String
  columns : List ColumnNode
  indexes : Option (List IndexNode) := none
  settings : TableSettings
  note : Option String := none
  leadingComments : Option (List String) := none
deriving DecidableEq, Repr

/-- `ast.ts` / `RefEndpoint`. -/
structure RefEndpoint where
  table : String
  column : String
deriving DecidableEq, Repr

/-- The five relationship symbols `'>' | '<' | '-' | '<>' | '~'`. -/
inductive RelSymbol where
  | gt | lt | dash | ltgt | tilde
deriving DecidableEq, Repr

/-- `ast.ts` / `RefSettings`. -/
structure RefSettings where
  swapEdge : Option Bool := none
  note : Option String := none
deriving DecidableEq, Repr

/-- `ast.ts` / `RefNode` (`from`/`to` are reserved words in Lean, renamed
`fromEp`/`toEp`). -/
structure RefNode where
  range : SourceRange
  name : Option String := none
  fromEp : RefEndpoint
  toEp : RefEndpoint
  relationType : RelSymbol
  settings : RefSettings
  leadingComments : Option (List String) := none
deriving DecidableEq, Repr

/-- `ast.ts` / `AreaSettings`. -/
structure AreaSettings where
  posX : Option NumLit := none
  posY : Option NumLit := none
  width : Option NumLit := none
  height : Option NumLit := none
  color : Option String := none
  databaseType : Option String := none
  labelHorizontal : Option String := none
  labelVertical : Option String := none
deriving DecidableEq, Repr

/-- `ast.ts` / `AreaNode`. -/
structure AreaNode where
  range : SourceRange
  name : String
  tables : List String
  settings : AreaSettings
  commonColumns : Option (List ColumnNode) := none
  note : Option String := none
  leadingComments : Option (List String) := none
deriving DecidableEq, Repr

/-- `ast.ts` / `ProgramNode`. -/
structure ProgramNode where
  range : SourceRange
  project : Option ProjectNode := none
  tables : List TableNode
  refs : List RefNode
  areas : List AreaNode
deriving DecidableEq, Repr

-- ===========================================================================
-- parser.ts
-- ===========================================================================

/-- `parser.ts` / `ParseError` (fields `message`, `position`, `code`). -/
structure ParseError where
  msg : String
  position : SourcePosition
  code : String
deriving DecidableEq, Repr

/-- The `Error.message` of a `ParseError`: the constructor prefixes
`[line:column]`. -/
def ParseError.message (e : ParseError) : String :=
  "[" ++ toString e.position.line ++ ":" ++ toString e.position.column ++ "] " ++ e.msg

/-- Mutable state of `Parser` (fields `tokens`, `pos`, `errors`,
`pendingComments`). -/
structure PState where
  tokens : List Token
  pos : Nat
  errors : List ParseError
  pendingComments : List String
deriving DecidableEq, Repr

/-- Fallback for out-of-range token access.  The lexer terminates every token
list with an EOF token and `advance` never moves past it, so this default is
unreachable through the pipeline (TS would read `undefined`). -/
def eofToken : Token := ⟨.EOF, "", ⟨0, 0, 0⟩, ⟨0, 0, 0⟩⟩

namespace Parser

/-- Parser computations: state in, value + state out, or a thrown
`ParseError` together with the state at throw time (the TS parser object
keeps its mutations when an exception unwinds). -/
def PM (α : Type) : Type := PState → Except (ParseError × PState) (α × PState)

instance : Monad PM where
  pure a := fun st => .ok (a, st)
  bind x f := fun st =>
    match x st with
    | .error e => .error e
    | .ok (a, st') => f a st'

/-- `Parser.peek`. -/
def peekT (st : PState) : Token := (st.tokens.get? st.pos).getD eofToken

/-- `Parser.peekNext`. -/
def peekNextT (st : PState) : Option Token := st.tokens.get? (st.pos + 1)

/-- `Parser.isAtEnd`. -/
def isAtEndSt (st : PState) : Bool := (peekT st).type == .EOF

/-- State effect of `Parser.advance` (no move past EOF). -/
def advSt (st : PState) : PState :=
  if isAtEndSt st then st else { st with pos := st.pos + 1 }

def mPeek : PM Token := fun st => .ok (peekT st, st)

def mPeekNext : PM (Option Token) := fun st => .ok (peekNextT st, st)

/-- `Parser.advance`: returns the current token, then moves (unless at EOF). -/
def mAdvance : PM Token := fun st => .ok (peekT st, advSt st)

/-- `Parser.check`. -/
def mCheck (tt : TokenType) : PM Bool := fun st => .ok ((peekT st).type == tt, st)

def mIsAtEnd : PM Bool := fun st => .ok (isAtEndSt st, st)

/-- `Parser.currentPosition` (= `peek().start`). -/
def mCurrentPosition : PM SourcePosition := fun st => .ok ((peekT st).start, st)

/-- `Parser.error`: throw a `ParseError` at the current position. -/
def mError {α : Type} (msg code : String) : PM α :=
  fun st => .error (⟨msg, (peekT st).start, code⟩, st)

/-- Fuel bound handed to each loop; every parser loop consumes at least one
token per iteration (or throws), so this bound is never reached. -/
def mGas : PM Nat := fun st => .ok (2 * st.tokens.length + 2, st)

def mPushComment (v : String) : PM Unit :=
  fun st => .ok ((), { st with pendingComments := st.pendingComments ++ [v] })

/-- `Parser.consumePendingComments`: return the buffer and clear it. -/
def mConsumePendingComments : PM (List String) :=
  fun st => .ok (st.pendingComments, { st with pendingComments := [] })

/-- `Parser.attachComments`: `some buffer` (and clear) when nonempty. -/
def mTakeComments : PM (Option (List String)) :=
  fun st =>
    if st.pendingComments.isEmpty then .ok (none, st)
    else .ok (some st.pendingComments, { st with pendingComments := [] })

def mPushError (e : ParseError) : PM Unit :=
  fun st => .ok ((), { st with errors := st.errors ++ [e] })

/-- The `try { … } catch (e) { if (e instanceof ParseError) … else throw e }`
of `parseProgram`; every throw in the parser is a `ParseError`. -/
def mTry {α : Type} (x : PM α) (handler : ParseError → PM α) : PM α :=
  fun st =>
    match x st with
    | .ok r => .ok r
    | .error (e, st') => handler e st'

/-- `Parser.isKeyword`: membership in the fixed 15-element keyword array. -/
def isKeyword (type : TokenType) : Bool :=
  ([.PROJECT, .TABLE, .AREA, .REF, .NOTE, .INDEXES, .PK, .FK, .UNIQUE,
    .NOT, .NULL, .INCREMENT, .DEFAULT, .ALIAS, .NAME] : List TokenType).contains type

/-- `Parser.isTopLevelKeyword` as a function of the peeked token type. -/
def isTopLevelKeywordT (t : TokenType) : Bool :=
  t == .PROJECT || t == .TABLE || t == .REF || t == .AREA

/-- `Parser.isColumnIdentifier` as a function of the peeked token type:
identifiers and double-quoted strings, plus non-top-level keywords. -/
def isColumnIdentifierT (t : TokenType) : Bool :=
  t == .IDENTIFIER || t == .STRING || (isKeyword t && !isTopLevelKeywordT t)

/-- `Parser.isIdentifierLike` as a function of the peeked token type. -/
def isIdentifierLikeT (t : TokenType) : Bool :=
  t == .IDENTIFIER || t == .STRING || isKeyword t

/-- `Parser.tokenTypeName`: punctuation gets its glyph, anything else the
enum member's name. -/
def tokenTypeName : TokenType → String
  | .LBRACE => String.singleton '{'
  | .RBRACE => String.singleton '}'
  | .LBRACKET => "["
  | .RBRACKET => "]"
  | .LPAREN => "("
  | .RPAREN => ")"
  | .COLON => ":"
  | .COMMA => ","
  | .DOT => "."
  | .PROJECT => "PROJECT"
  | .TABLE => "TABLE"
  | .AREA => "AREA"
  | .REF => "REF"
  | .NOTE => "NOTE"
  | .INDEXES => "INDEXES"
  | .COMMON_COLUMNS => "COMMON_COLUMNS"
  | .PK => "PK"
  | .FK => "FK"
  | .UNIQUE => "UNIQUE"
  | .NOT => "NOT"
  | .NULL => "NULL"
  | .INCREMENT => "INCREMENT"
  | .DEFAULT => "DEFAULT"
  | .ALIAS => "ALIAS"
  | .POS_X => "POS_X"
  | .POS_Y => "POS_Y"
  | .WIDTH => "WIDTH"
  | .HEIGHT => "HEIGHT"
  | .COLOR => "COLOR"
  | .SWAP_EDGE => "SWAP_EDGE"
  | .DATABASE_TYPE => "DATABASE_TYPE"
  | .LABEL_HORIZONTAL => "LABEL_HORIZONTAL"
  | .LABEL_VERTICAL => "LABEL_VERTICAL"
  | .NAME => "NAME"
  | .IDENTIFIER => "IDENTIFIER"
  | .STRING => "STRING"
  | .SINGLE_STRING => "SINGLE_STRING"
  | .BACKTICK_STRING => "BACKTICK_STRING"
  | .NUMBER => "NUMBER"
  | .REF_GT => "REF_GT"
  | .REF_LT => "REF_LT"
  | .REF_DASH => "REF_DASH"
  | .REF_LTGT => "REF_LTGT"
  | .REF_TILDE => "REF_TILDE"
  | .LINE_COMMENT => "LINE_COMMENT"
  | .NEWLINE => "NEWLINE"
  | .EOF => "EOF"

/-- `Parser.expect`: consume the expected token type or throw. -/
def expect (tt : TokenType) : PM Token := do
  if (← mCheck tt) then mAdvance
  else do
    let tok ← mPeek
    mError (String.singleton squote ++ tokenTypeName tt ++ String.singleton squote ++
            " が必要ですが、" ++ String.singleton squote ++ tok.value ++
            String.singleton squote ++ " が見つかりました") "UNEXPECTED_TOKEN"

/-- `Parser.collectComments`: accumulate consecutive line comments. -/
def collectComments : Nat → PM Unit
  | 0 => pure ()
  | fuel + 1 => do
    if (← mCheck .LINE_COMMENT) then do
      let tok ← mAdvance
      mPushComment tok.value
      collectComments fuel
    else pure ()

/-- `Parser.synchronize` loop: skip until a closing brace (consumed) or a
top-level keyword (not consumed) or EOF. -/
def syncLoop : Nat → PState → PState
  | 0, st => st
  | fuel + 1, st =>
    if isAtEndSt st then st
    else if (peekT st).type == .RBRACE then advSt st
    else if isTopLevelKeywordT (peekT st).type then st
    else syncLoop fuel (advSt st)

/-- `Parser.synchronize`; the loop consumes a token per iteration and ends at
`tokens.length` at the latest, so fuel `tokens.length + 1` is never
exhausted. -/
def synchronize (st : PState) : PState := syncLoop (st.tokens.length + 1) st

def synchronizeM : PM Unit := fun st => .ok ((), synchronize st)

/-- `Parser.parseIdentifier`: identifier, double-quoted string, or keyword. -/
def parseIdentifier : PM String := do
  let tok ← mPeek
  if tok.type == .IDENTIFIER then do let _ ← mAdvance; pure tok.value
  else if tok.type == .STRING then do let _ ← mAdvance; pure tok.value
  else if isKeyword tok.type then do let _ ← mAdvance; pure tok.value
  else mError ("識別子が必要です") "EXPECTED_IDENTIFIER"

/-- `Parser.parseNameOrString`. -/
def parseNameOrString : PM String := do
  let tok ← mPeek
  if tok.type == .STRING then do let _ ← mAdvance; pure tok.value
  else if tok.type == .IDENTIFIER then do let _ ← mAdvance; pure tok.value
  else mError ("名前または文字列が必要です") "EXPECTED_NAME"

/-- `Parser.parseStringValue`: any string literal or an identifier. -/
def parseStringValue : PM String := do
  let tok ← mPeek
  if tok.type == .STRING || tok.type == .SINGLE_STRING || tok.type == .BACKTICK_STRING then do
    let _ ← mAdvance; pure tok.value
  else if tok.type == .IDENTIFIER then do let _ ← mAdvance; pure tok.value
  else mError ("文字列が必要です") "EXPECTED_STRING"

/-- `Parser.parseNumberValue` (TS `parseFloat(token.value)`, see `NumLit`). -/
def parseNumberValue : PM NumLit := do
  let tok ← mPeek
  if tok.type == .NUMBER then do let _ ← mAdvance; pure tok.value
  else mError ("数値が必要です") "EXPECTED_NUMBER"

/-- `Parser.parseBooleanValue`. -/
def parseBooleanValue : PM Bool := do
  let tok ← mPeek
  if tok.type == .IDENTIFIER then do
    let _ ← mAdvance; pure (toLowerStr tok.value == "true")
  else if tok.type == .NUMBER then do
    let _ ← mAdvance; pure (tok.value ≠ "0")
  else do
    let _ ← mAdvance; pure false

/-- `Parser.parseDefaultValue`: the stored value keeps its quote characters. -/
def parseDefaultValue : PM (String × DefaultKind) := do
  let tok ← mPeek
  if tok.type == .SINGLE_STRING then do
    let _ ← mAdvance
    pure (String.singleton squote ++ tok.value ++ String.singleton squote, .str)
  else if tok.type == .STRING then do
    let _ ← mAdvance
    pure ("\"" ++ tok.value ++ "\"", .str)
  else if tok.type == .BACKTICK_STRING then do
    let _ ← mAdvance
    pure (String.singleton backquote ++ tok.value ++ String.singleton backquote, .fn)
  else if tok.type == .NUMBER then do
    let _ ← mAdvance
    pure (tok.value, .val)
  else if tok.type == .IDENTIFIER then do
    let _ ← mAdvance
    pure (tok.value, .val)
  else do
    let _ ← mAdvance
    pure (tok.value, .val)

/-- Loop of `Parser.parseColumnType`: concatenate raw token values between
parentheses. -/
def typeParamsLoop : Nat → String → PM String
  | 0, acc => pure acc
  | fuel + 1, acc => do
    if (← mCheck .RPAREN) then pure acc
    else if (← mIsAtEnd) then pure acc
    else do
      let tok ← mAdvance
      typeParamsLoop fuel (acc ++ tok.value)

/-- `Parser.parseColumnType`. -/
def parseColumnType : PM (String × Option String) := do
  let type ← parseIdentifier
  if (← mCheck .LPAREN) then do
    let _ ← mAdvance
    let params ← typeParamsLoop (← mGas) ""
    let _ ← expect .RPAREN
    pure (type, some params)
  else pure (type, none)

/-- Loop of `Parser.parseColumnConstraints`. -/
def constraintsLoop : Nat → ColumnConstraints → PM ColumnConstraints
  | 0, c => pure c
  | fuel + 1, c => do
    if (← mCheck .RBRACKET) then pure c
    else if (← mIsAtEnd) then pure c
    else if (← mCheck .PK) then do
      let _ ← mAdvance; constraintsLoop fuel { c with pk := some true }
    else if (← mCheck .FK) then do
      let _ ← mAdvance; constraintsLoop fuel { c with fk := some true }
    else if (← mCheck .UNIQUE) then do
      let _ ← mAdvance; constraintsLoop fuel { c with unique := some true }
    else if (← mCheck .NOT) then do
      let _ ← mAdvance
      if (← mCheck .NULL) then do let _ ← mAdvance; pure () else pure ()
      constraintsLoop fuel { c with notNull := some true }
    else if (← mCheck .NULL) then do
      let _ ← mAdvance; constraintsLoop fuel c
    else if (← mCheck .INCREMENT) then do
      let _ ← mAdvance; constraintsLoop fuel { c with increment := some true }
    else if (← mCheck .DEFAULT) then do
      let _ ← mAdvance
      let _ ← expect .COLON
      let vt ← parseDefaultValue
      constraintsLoop fuel { c with default := some vt.1, defaultType := some vt.2 }
    else if (← mCheck .ALIAS) then do
      let _ ← mAdvance
      let _ ← expect .COLON
      let v ← parseStringValue
      constraintsLoop fuel { c with aliasName := some v }
    else if (← mCheck .NOTE) then do
      let _ ← mAdvance
      let _ ← expect .COLON
      let v ← parseStringValue
      constraintsLoop fuel { c with note := some v }
    else if (← mCheck .COMMA) then do
      let _ ← mAdvance; constraintsLoop fuel c
    else do
      let _ ← mAdvance; constraintsLoop fuel c

/-- `Parser.parseColumnConstraints`. -/
def parseColumnConstraints : PM ColumnConstraints := do
  if !(← mCheck .LBRACKET) then pure {}
  else do
    let _ ← mAdvance
    let c ← constraintsLoop (← mGas) {}
    let _ ← expect .RBRACKET
    pure c

/-- `Parser.parseColumn`. -/
def parseColumn : PM ColumnNode := do
  let start ← mCurrentPosition
  let name ← parseIdentifier
  let tp ← parseColumnType
  let constraints ← parseColumnConstraints
  let endP ← mCurrentPosition
  pure { range := ⟨start, endP⟩, name := name, type := tp.1, typeParams := tp.2,
         constraints := constraints }

/-- `Parser.parseInlineNote`. -/
def parseInlineNote : PM String := do
  let _ ← expect .NOTE
  let _ ← expect .COLON
  parseStringValue

-- ---------------------------------------------------------------------------
-- Project
-- ---------------------------------------------------------------------------

/-- Loop of `Parser.parseProjectBody`. -/
def projectBodyLoop : Nat → ProjectSettings → PM ProjectSettings
  | 0, s => pure s
  | fuel + 1, s => do
    if (← mCheck .RBRACE) then pure s
    else if (← mIsAtEnd) then pure s
    else do
      collectComments (← mGas)
      if (← mCheck .RBRACE) then pure s
      else if (← mCheck .DATABASE_TYPE) then do
        let _ ← mAdvance
        let _ ← expect .COLON
        let v ← parseStringValue
        projectBodyLoop fuel { s with databaseType := some v }
      else if (← mCheck .NOTE) then do
        let _ ← mAdvance
        let _ ← expect .COLON
        let v ← parseStringValue
        projectBodyLoop fuel { s with note := some v }
      else do
        let _ ← mAdvance
        projectBodyLoop fuel s

/-- `Parser.parseProjectBody`. -/
def parseProjectBody : PM ProjectSettings := do
  if !(← mCheck .LBRACE) then pure {}
  else do
    let _ ← mAdvance
    let s ← projectBodyLoop (← mGas) {}
    let _ ← expect .RBRACE
    pure s

/-- `Parser.parseProject`. -/
def parseProject : PM ProjectNode := do
  let start ← mCurrentPosition
  let _ ← expect .PROJECT
  let name ← parseNameOrString
  let settings ← parseProjectBody
  let endP ← mCurrentPosition
  pure { range := ⟨start, endP⟩, name := name, settings := settings }

-- ---------------------------------------------------------------------------
-- Table
-- ---------------------------------------------------------------------------

/-- Loop of `Parser.parseTableSettings`. -/
def tableSettingsLoop : Nat → TableSettings → PM TableSettings
  | 0, s => pure s
  | fuel + 1, s => do
    if (← mCheck .RBRACKET) then pure s
    else if (← mIsAtEnd) then pure s
    else if (← mCheck .ALIAS) then do
      let _ ← mAdvance
      let _ ← expect .COLON
      let v ← parseStringValue
      tableSettingsLoop fuel { s with aliasName := some v }
    else if (← mCheck .POS_X) then do
      let _ ← mAdvance
      let _ ← expect .COLON
      let v ← parseNumberValue
      tableSettingsLoop fuel { s with posX := some v }
    else if (← mCheck .POS_Y) then do
      let _ ← mAdvance
      let _ ← expect .COLON
      let v ← parseNumberValue
      tableSettingsLoop fuel { s with posY := some v }
    else if (← mCheck .COLOR) then do
      let _ ← mAdvance
      let _ ← expect .COLON
      let v ← parseStringValue
      tableSettingsLoop fuel { s with color := some v }
    else if (← mCheck .COMMA) then do
      let _ ← mAdvance; tableSettingsLoop fuel s
    else do
      let _ ← mAdvance; tableSettingsLoop fuel s

/-- `Parser.parseTableSettings`. -/
def parseTableSettings : PM TableSettings := do
  if !(← mCheck .LBRACKET) then pure {}
  else do
    let _ ← mAdvance
    let s ← tableSettingsLoop (← mGas) {}
    let _ ← expect .RBRACKET
    pure s

/-- Accumulator of `Parser.parseTableBody`. -/
structure TableBodyAcc where
  columns : List ColumnNode := []
  indexes : List IndexNode := []
  note : Option String := none
deriving DecidableEq, Repr

-- Indexes --

/-- Loop of `Parser.parseIndexSettings`. -/
def indexSettingsLoop : Nat → IndexSettings → PM IndexSettings
  | 0, s => pure s
  | fuel + 1, s => do
    if (← mCheck .RBRACKET) then pure s
    else if (← mIsAtEnd) then pure s
    else if (← mCheck .UNIQUE) then do
      let _ ← mAdvance; indexSettingsLoop fuel { s with unique := some true }
    else if (← mCheck .PK) then do
      let _ ← mAdvance; indexSettingsLoop fuel { s with pk := some true }
    else if (← mCheck .NAME) then do
      let _ ← mAdvance
      let _ ← expect .COLON
      let v ← parseStringValue
      indexSettingsLoop fuel { s with name := some v }
    else if (← mCheck .COMMA) then do
      let _ ← mAdvance; indexSettingsLoop fuel s
    else do
      let _ ← mAdvance; indexSettingsLoop fuel s

/-- `Parser.parseIndexSettings`. -/
def parseIndexSettings : PM IndexSettings := do
  if !(← mCheck .LBRACKET) then pure {}
  else do
    let _ ← mAdvance
    let s ← indexSettingsLoop (← mGas) {}
    let _ ← expect .RBRACKET
    pure s

/-- Column-list loop of `Parser.parseIndex` (composite `(a, b, …)` form). -/
def indexColsLoop : Nat → List String → PM (List String)
  | 0, acc => pure acc
  | fuel + 1, acc => do
    if (← mCheck .RPAREN) then pure acc
    else if (← mIsAtEnd) then pure acc
    else do
      let acc ←
        if isIdentifierLikeT (← mPeek).type then do
          let c ← parseIdentifier
          pure (acc ++ [c])
        else pure acc
      if (← mCheck .COMMA) then do
        let _ ← mAdvance
        indexColsLoop fuel acc
      else indexColsLoop fuel acc

/-- `Parser.parseIndex`. -/
def parseIndex : PM IndexNode := do
  let start ← mCurrentPosition
  let columns ←
    if (← mCheck .LPAREN) then do
      let _ ← mAdvance
      let cols ← indexColsLoop (← mGas) []
      let _ ← expect .RPAREN
      pure cols
    else do
      let c ← parseIdentifier
      pure [c]
  let settings ← parseIndexSettings
  let endP ← mCurrentPosition
  pure { range := ⟨start, endP⟩, columns := columns, settings := settings }

/-- Loop of `Parser.parseIndexes`. -/
def indexesLoop : Nat → List IndexNode → PM (List IndexNode)
  | 0, acc => pure acc
  | fuel + 1, acc => do
    if (← mCheck .RBRACE) then pure acc
    else if (← mIsAtEnd) then pure acc
    else do
      collectComments (← mGas)
      if (← mCheck .RBRACE) then pure acc
      else if (← mCheck .LPAREN) || isIdentifierLikeT (← mPeek).type then do
        let i ← parseIndex
        let lc ← mTakeComments
        let i := match lc with
          | some l => { i with leadingComments := some l }
          | none => i
        indexesLoop fuel (acc ++ [i])
      else do
        let _ ← mAdvance
        indexesLoop fuel acc

/-- `Parser.parseIndexes`. -/
def parseIndexes : PM (List IndexNode) := do
  let _ ← expect .INDEXES
  let _ ← expect .LBRACE
  let idxs ← indexesLoop (← mGas) []
  let _ ← expect .RBRACE
  pure idxs

/-- Loop of `Parser.parseTableBody`: indexes blocks, inline notes, columns;
a top-level keyword means the table body was never closed (throws); anything
else is skipped token-by-token. -/
def tableBodyLoop : Nat → TableBodyAcc → PM TableBodyAcc
  | 0, acc => pure acc
  | fuel + 1, acc => do
    if (← mCheck .RBRACE) then pure acc
    else if (← mIsAtEnd) then pure acc
    else do
      collectComments (← mGas)
      if (← mCheck .RBRACE) then pure acc
      else if isTopLevelKeywordT (← mPeek).type then
        mError ("テーブル定義が閉じられていません。" ++ String.singleton '"' ++
                String.singleton '}' ++ String.singleton '"' ++ " が必要です")
          "UNCLOSED_TABLE"
      else if (← mCheck .INDEXES) then do
        let idxs ← parseIndexes
        tableBodyLoop fuel { acc with indexes := acc.indexes ++ idxs }
      else if (← mCheck .NOTE) then do
        let n ← parseInlineNote
        tableBodyLoop fuel { acc with note := some n }
      else if isColumnIdentifierT (← mPeek).type then do
        let lc ← mConsumePendingComments
        let col ← parseColumn
        let col := if lc.length > 0 then { col with leadingComments := some lc } else col
        tableBodyLoop fuel { acc with columns := acc.columns ++ [col] }
      else do
        let _ ← mAdvance
        tableBodyLoop fuel acc

/-- `Parser.parseTableBody`: the closing brace is consumed only when
present. -/
def parseTableBody : PM TableBodyAcc := do
  let _ ← expect .LBRACE
  let acc ← tableBodyLoop (← mGas) {}
  if (← mCheck .RBRACE) then do let _ ← mAdvance; pure acc
  else pure acc

/-- `Parser.parseTable`. -/
def parseTable : PM TableNode := do
  let start ← mCurrentPosition
  let _ ← expect .TABLE
  let name ← parseIdentifier
  let settings ← parseTableSettings
  let body ← parseTableBody
  let endP ← mCurrentPosition
  pure { range := ⟨start, endP⟩, name := name, columns := body.columns,
         indexes := if body.indexes.length > 0 then some body.indexes else none,
         settings := settings, note := body.note }

-- ---------------------------------------------------------------------------
-- Reference
-- ---------------------------------------------------------------------------

/-- `Parser.parseRefEndpoint`: `table.column`. -/
def parseRefEndpoint : PM RefEndpoint := do
  let table ← parseIdentifier
  let _ ← expect .DOT
  let column ← parseIdentifier
  pure ⟨table, column⟩

/-- `Parser.parseRelationType`. -/
def parseRelationType : PM RelSymbol := do
  if (← mCheck .REF_GT) then do let _ ← mAdvance; pure .gt
  else if (← mCheck .REF_LT) then do let _ ← mAdvance; pure .lt
  else if (← mCheck .REF_LTGT) then do let _ ← mAdvance; pure .ltgt
  else if (← mCheck .REF_DASH) then do let _ ← mAdvance; pure .dash
  else if (← mCheck .REF_TILDE) then do let _ ← mAdvance; pure .tilde
  else mError ("リレーション演算子が必要です（>, <, -, <>, ~）") "EXPECTED_REF_OPERATOR"

/-- Loop of `Parser.parseRefSettings`. -/
def refSettingsLoop : Nat → RefSettings → PM RefSettings
  | 0, s => pure s
  | fuel + 1, s => do
    if (← mCheck .RBRACKET) then pure s
    else if (← mIsAtEnd) then pure s
    else if (← mCheck .SWAP_EDGE) then do
      let _ ← mAdvance
      let _ ← expect .COLON
      let v ← parseBooleanValue
      refSettingsLoop fuel { s with swapEdge := some v }
    else if (← mCheck .NOTE) then do
      let _ ← mAdvance
      let _ ← expect .COLON
      let v ← parseStringValue
      refSettingsLoop fuel { s with note := some v }
    else if (← mCheck .COMMA) then do
      let _ ← mAdvance; refSettingsLoop fuel s
    else do
      let _ ← mAdvance; refSettingsLoop fuel s

/-- `Parser.parseRefSettings`. -/
def parseRefSettings : PM RefSettings := do
  if !(← mCheck .LBRACKET) then pure {}
  else do
    let _ ← mAdvance
    let s ← refSettingsLoop (← mGas) {}
    let _ ← expect .RBRACKET
    pure s

/-- `Parser.parseRef`. -/
def parseRef : PM RefNode := do
  let start ← mCurrentPosition
  let _ ← expect .REF
  let name ←
    if (← mCheck .IDENTIFIER) && ((← mPeekNext).map (·.type) == some .COLON) then do
      let n ← parseIdentifier
      pure (some n)
    else pure none
  let _ ← expect .COLON
  let fromEp ← parseRefEndpoint
  let relationType ← parseRelationType
  let toEp ← parseRefEndpoint
  let settings ← parseRefSettings
  let endP ← mCurrentPosition
  pure { range := ⟨start, endP⟩, name := name, fromEp := fromEp, toEp := toEp,
         relationType := relationType, settings := settings }

-- ---------------------------------------------------------------------------
-- Area
-- ---------------------------------------------------------------------------

/-- Loop of `Parser.parseAreaSettings`. -/
def areaSettingsLoop : Nat → AreaSettings → PM AreaSettings
  | 0, s => pure s
  | fuel + 1, s => do
    if (← mCheck .RBRACKET) then pure s
    else if (← mIsAtEnd) then pure s
    else if (← mCheck .POS_X) then do
      let _ ← mAdvance
      let _ ← expect .COLON
      let v ← parseNumberValue
      areaSettingsLoop fuel { s with posX := some v }
    else if (← mCheck .POS_Y) then do
      let _ ← mAdvance
      let _ ← expect .COLON
      let v ← parseNumberValue
      areaSettingsLoop fuel { s with posY := some v }
    else if (← mCheck .WIDTH) then do
      let _ ← mAdvance
      let _ ← expect .COLON
      let v ← parseNumberValue
      areaSettingsLoop fuel { s with width := some v }
    else if (← mCheck .HEIGHT) then do
      let _ ← mAdvance
      let _ ← expect .COLON
      let v ← parseNumberValue
      areaSettingsLoop fuel { s with height := some v }
    else if (← mCheck .COLOR) then do
      let _ ← mAdvance
      let _ ← expect .COLON
      let v ← parseStringValue
      areaSettingsLoop fuel { s with color := some v }
    else if (← mCheck .DATABASE_TYPE) then do
      let _ ← mAdvance
      let _ ← expect .COLON
      let v ← parseStringValue
      areaSettingsLoop fuel { s with databaseType := some v }
    else if (← mCheck .LABEL_HORIZONTAL) then do
      let _ ← mAdvance
      let _ ← expect .COLON
      let v ← parseStringValue
      if v == "left" || v == "center" || v == "right" then
        areaSettingsLoop fuel { s with labelHorizontal := some v }
      else areaSettingsLoop fuel s
    else if (← mCheck .LABEL_VERTICAL) then do
      let _ ← mAdvance
      let _ ← expect .COLON
      let v ← parseStringValue
      if v == "top" || v == "center" || v == "bottom" then
        areaSettingsLoop fuel { s with labelVertical := some v }
      else areaSettingsLoop fuel s
    else if (← mCheck .COMMA) then do
      let _ ← mAdvance; areaSettingsLoop fuel s
    else do
      let _ ← mAdvance; areaSettingsLoop fuel s

/-- `Parser.parseAreaSettings`. -/
def parseAreaSettings : PM AreaSettings := do
  if !(← mCheck .LBRACKET) then pure {}
  else do
    let _ ← mAdvance
    let s ← areaSettingsLoop (← mGas) {}
    let _ ← expect .RBRACKET
    pure s

/-- Loop of `Parser.parseCommonColumns`. -/
def commonColumnsLoop : Nat → List ColumnNode → PM (List ColumnNode)
  | 0, acc => pure acc
  | fuel + 1, acc => do
    if (← mCheck .RBRACKET) then pure acc
    else if (← mIsAtEnd) then pure acc
    else do
      collectComments (← mGas)
      if (← mCheck .RBRACKET) then pure acc
      else if isIdentifierLikeT (← mPeek).type then do
        let col ← parseColumn
        let lc ← mTakeComments
        let col := match lc with
          | some l => { col with leadingComments := some l }
          | none => col
        commonColumnsLoop fuel (acc ++ [col])
      else do
        let _ ← mAdvance
        commonColumnsLoop fuel acc

/-- `Parser.parseCommonColumns`. -/
def parseCommonColumns : PM (List ColumnNode) := do
  let _ ← expect .COMMON_COLUMNS
  let _ ← expect .COLON
  let _ ← expect .LBRACKET
  let cols ← commonColumnsLoop (← mGas) []
  let _ ← expect .RBRACKET
  pure cols

/-- Accumulator of `Parser.parseAreaBody`. -/
structure AreaBodyAcc where
  tables : List String := []
  commonColumns : List ColumnNode := []
  note : Option String := none
deriving DecidableEq, Repr

/-- Loop of `Parser.parseAreaBody`: CommonColumns blocks, inline notes, bare
table-name references; anything else skipped. -/
def areaBodyLoop : Nat → AreaBodyAcc → PM AreaBodyAcc
  | 0, acc => pure acc
  | fuel + 1, acc => do
    if (← mCheck .RBRACE) then pure acc
    else if (← mIsAtEnd) then pure acc
    else do
      collectComments (← mGas)
      if (← mCheck .RBRACE) then pure acc
      else if (← mCheck .COMMON_COLUMNS) then do
        let cols ← parseCommonColumns
        areaBodyLoop fuel { acc with commonColumns := acc.commonColumns ++ cols }
      else if (← mCheck .NOTE) then do
        let n ← parseInlineNote
        areaBodyLoop fuel { acc with note := some n }
      else if isIdentifierLikeT (← mPeek).type then do
        let t ← parseIdentifier
        areaBodyLoop fuel { acc with tables := acc.tables ++ [t] }
      else do
        let _ ← mAdvance
        areaBodyLoop fuel acc

/-- `Parser.parseAreaBody`. -/
def parseAreaBody : PM AreaBodyAcc := do
  let _ ← expect .LBRACE
  let acc ← areaBodyLoop (← mGas) {}
  let _ ← expect .RBRACE
  pure acc

/-- `Parser.parseArea`. -/
def parseArea : PM AreaNode := do
  let start ← mCurrentPosition
  let _ ← expect .AREA
  let name ← parseStringValue
  let settings ← parseAreaSettings
  let body ← parseAreaBody
  let endP ← mCurrentPosition
  pure { range := ⟨start, endP⟩, name := name, tables := body.tables,
         settings := settings,
         commonColumns := if body.commonColumns.length > 0 then some body.commonColumns else none,
         note := body.note }

-- ---------------------------------------------------------------------------
-- Program
-- ---------------------------------------------------------------------------

/-- Accumulator of `Parser.parseProgram`. -/
structure ProgAcc where
  project : Option ProjectNode := none
  tables : List TableNode := []
  refs : List RefNode := []
  areas : List AreaNode := []
deriving DecidableEq, Repr

/-- Body of the `try` block of one `parseProgram` iteration; the `Bool` is
`false` only for the (unreachable after the outer EOF check) EOF `break`. -/
def programStep (acc : ProgAcc) : PM (ProgAcc × Bool) := do
  let lc ← mConsumePendingComments
  if (← mCheck .PROJECT) then do
    let p ← parseProject
    let p := if lc.length > 0 then { p with leadingComments := some lc } else p
    pure ({ acc with project := some p }, true)
  else if (← mCheck .TABLE) then do
    let t ← parseTable
    let t := if lc.length > 0 then { t with leadingComments := some lc } else t
    pure ({ acc with tables := acc.tables ++ [t] }, true)
  else if (← mCheck .REF) then do
    let r ← parseRef
    let r := if lc.length > 0 then { r with leadingComments := some lc } else r
    pure ({ acc with refs := acc.refs ++ [r] }, true)
  else if (← mCheck .AREA) then do
    let a ← parseArea
    let a := if lc.length > 0 then { a with leadingComments := some lc } else a
    pure ({ acc with areas := acc.areas ++ [a] }, true)
  else if (← mCheck .EOF) then pure (acc, false)
  else do
    let tok ← mPeek
    mError ("予期しないトークンです: " ++ String.singleton squote ++ tok.value ++
            String.singleton squote) "UNEXPECTED_TOKEN"

/-- Top-level loop of `Parser.parseProgram`: on a thrown `ParseError` the
error is recorded and the cursor synchronized, then parsing continues. -/
def programLoop : Nat → ProgAcc → PM ProgAcc
  | 0, acc => pure acc
  | fuel + 1, acc => do
    if (← mIsAtEnd) then pure acc
    else do
      collectComments (← mGas)
      if (← mIsAtEnd) then pure acc
      else do
        let r ← mTry (programStep acc) (fun e => do
          mPushError e
          synchronizeM
          pure (acc, true))
        if r.2 then programLoop fuel r.1 else pure r.1

/-- `Parser.parse`: run the top-level loop from a fresh state and return the
program node together with the collected recoverable diagnostics.  (No
`ParseError` escapes the loop — every throw is caught by its `mTry` — so the
`.error` case below is unreachable and returns an empty program.) -/
def parse (tokens : List Token) : ProgramNode × List ParseError :=
  let st0 : PState := ⟨tokens, 0, [], []⟩
  let start := (peekT st0).start
  match programLoop (2 * tokens.length + 2) {} st0 with
  | .ok (acc, st) =>
    ({ range := ⟨start, (peekT st).start⟩, project := acc.project, tables := acc.tables,
       refs := acc.refs, areas := acc.areas }, st.errors)
  | .error (e, st) =>
    ({ range := ⟨start, (peekT st).start⟩, tables := [], refs := [], areas := [] },
     st.errors ++ [e])

end Parser

-- ===========================================================================
-- types/index.ts (domain model)
-- ===========================================================================

/-- JS truthiness of an optional string (`undefined` and `""` are falsy). -/
def jsTruthy : Option String → Bool
  | none => false
  | some s => !s.isEmpty

/-- JS `a || b` where `a` is an optional string. -/
def jsOr (o : Option String) (dflt : String) : String :=
  match o with
  | some s => if s.isEmpty then dflt else s
  | none => dflt

/-- JS `a || b` where `a` is a plain string. -/
def jsOrS (s : String) (dflt : String) : String := if s.isEmpty then dflt else s

/-- JS truthiness of an optional boolean. -/
def jsTruthyB (o : Option Bool) : Bool := o.getD false

/-- A numeric literal denoting zero (`0`, `0.0`, `-0`, …).  JS truthiness of
an optional number is false exactly for `undefined`, `0` and `NaN`; every
number in the pipeline originates from a NUMBER token, so the literal-text
test suffices. -/
def numIsZero (s : NumLit) : Bool :=
  s.data.all (fun c => c = '0' || c = '-' || c = '.')

/-- JS truthiness of an optional number under the `NumLit` model. -/
def jsTruthyNum : Option NumLit → Bool
  | none => false
  | some s => !numIsZero s

/-- `types/index.ts` / `Position` (numbers modelled as `NumLit`). -/
structure Position where
  x : NumLit
  y : NumLit
deriving DecidableEq, Repr

/-- `types/index.ts` / `Column` (domain model; `type : DataType` is a string,
`alias`-style logical name is `logicalName`).  `leadingComments` is attached
by the transformer and consumed by the serializer. -/
structure Column where
  name : String
  logicalName : Option String := none
  type : String
  typeParams : Option String := none
  pk : Option Bool := none
  fk : Option Bool := none
  unique : Option Bool := none
  notNull : Option Bool := none
  default : Option String := none
  increment : Option Bool := none
  note : Option String := none
  leadingComments : Option (List String) := none
deriving DecidableEq, Repr

/-- `types/index.ts` / `Table`.  `areaIds` is optional in TS but the
transformer initializes it to `[]` on every table it builds, so it is
modelled as a plain list. -/
structure Table where
  id : String
  name : String
  logicalName : Option String := none
  columns : List Column
  color : Option String := none
  pos : Option Position := none
  areaIds : List String := []
  note : Option String := none
  leadingComments : Option (List String) := none
deriving DecidableEq, Repr

/-- `types/index.ts` / `Reference` (`type : RelationshipType` modelled as its
string value). -/
structure Reference where
  id : String
  fromTable : String
  fromColumn : String
  toTable : String
  toColumn : String
  type : Option String := none
  swapEdge : Option Bool := none
  note : Option String := none
  leadingComments : Option (List String) := none
deriving DecidableEq, Repr

/-- `types/index.ts` / `Area`. -/
structure Area where
  id : String
  name : String
  color : Option String := none
  pos : Option Position := none
  width : Option NumLit := none
  height : Option NumLit := none
  labelHorizontal : Option String := none
  labelVertical : Option String := none
  databaseType : Option String := none
  tables : List String := []
  commonColumns : Option (List Column) := none
  note : Option String := none
  leadingComments : Option (List String) := none
deriving DecidableEq, Repr

/-- `types/index.ts` / `Diagram` (the `comments` field is never produced or
consumed by this pipeline and is omitted). -/
structure Diagram where
  id : String
  name : String
  project : Option String := none
  database : Option String := none
  tables : List Table
  references : List Reference
  areas : Option (List Area) := none
  createdAt : Option String := none
  updatedAt : Option String := none
  note : Option String := none
deriving DecidableEq, Repr

/-- `types/index.ts` / `ParseResult`. -/
structure ParseResult where
  success : Bool
  diagram : Option Diagram := none
  error : Option String := none
  warnings : Option (List String) := none
deriving DecidableEq, Repr

-- ===========================================================================
-- transformer.ts
-- ===========================================================================

/-- `transformer.ts` / `TransformOptions`. -/
structure TransformOptions where
  diagramId : Option String := none
  defaultDatabase : Option String := none
deriving DecidableEq, Repr

/-- `transformer.ts` / `mapTypeToDataType`: fixed case-insensitive lookup,
unknown types pass through unchanged. -/
def mapTypeToDataType (type : String) : String :=
  let typeMap : List (String × String) :=
    [("int", "integer"), ("integer", "integer"), ("bigint", "bigint"),
     ("smallint", "smallint"), ("serial", "serial"), ("bigserial", "bigserial"),
     ("varchar", "varchar"), ("char", "char"), ("text", "text"),
     ("boolean", "boolean"), ("bool", "boolean"), ("date", "date"),
     ("time", "time"), ("timestamp", "timestamp"), ("timestamptz", "timestamptz"),
     ("numeric", "numeric"), ("decimal", "decimal"), ("real", "real"),
     ("double", "double precision"), ("json", "json"), ("jsonb", "jsonb"),
     ("uuid", "uuid"), ("bytea", "bytea")]
  (typeMap.lookup (toLowerStr type)).getD type

/-- `transformer.ts` / `mapRelationType`: total mapping of the five symbols
(the TS `default` branch is unreachable over the `RelSymbol` type). -/
def mapRelationType : RelSymbol → String
  | .gt => "many-to-one"
  | .lt => "one-to-many"
  | .dash => "one-to-one"
  | .ltgt => "many-to-many"
  | .tilde => "ai-inferred"

/-- `transformer.ts` / `transformColumn`.  The object literal in the source
does not copy `node.constraints.default` (nor `defaultType`), so the domain
column's `default` field is left `undefined`. -/
def transformColumn (node : ColumnNode) : Column :=
  { name := node.name,
    logicalName := node.constraints.aliasName,
    type := mapTypeToDataType node.type,
    typeParams := node.typeParams,
    pk := node.constraints.pk,
    fk := node.constraints.fk,
    unique := node.constraints.unique,
    notNull := node.constraints.notNull,
    increment := node.constraints.increment,
    note := node.constraints.note,
    leadingComments := node.leadingComments,
    default := none }

/-- `transformer.ts` / `transformTable`: `id = "table-" + name`, position only
when both coordinates are present, `areaIds` initialized empty. -/
def transformTable (node : TableNode) : Table :=
  { id := "table-" ++ node.name,
    name := node.name,
    logicalName := node.settings.aliasName,
    columns := node.columns.map transformColumn,
    color := node.settings.color,
    pos := match node.settings.posX, node.settings.posY with
           | some x, some y => some ⟨x, y⟩
           | _, _ => none,
    areaIds := [],
    note := node.note,
    leadingComments := node.leadingComments }

/-- `transformer.ts` / `transformRef`: endpoint table ids and the reference
id `ref-from.table-from.column-to.table-to.column`. -/
def transformRef (node : RefNode) : Reference :=
  { id := "ref-" ++ node.fromEp.table ++ "-" ++ node.fromEp.column ++ "-" ++
          node.toEp.table ++ "-" ++ node.toEp.column,
    fromTable := "table-" ++ node.fromEp.table,
    fromColumn := node.fromEp.column,
    toTable := "table-" ++ node.toEp.table,
    toColumn := node.toEp.column,
    type := some (mapRelationType node.relationType),
    swapEdge := node.settings.swapEdge,
    note := node.settings.note,
    leadingComments := node.leadingComments }

/-- The `tables.find(t => t.name === tableName)` + in-place mutation inside
`transformArea`: the first table with the given name gets the area id pushed
onto `areaIds` unless already present. -/
def markTableArea (tableName areaId : String) : List Table → List Table
  | [] => []
  | t :: ts =>
    if t.name = tableName then
      (if areaId ∈ t.areaIds then t else { t with areaIds := t.areaIds ++ [areaId] }) :: ts
    else t :: markTableArea tableName areaId ts

/-- `transformer.ts` / `transformArea`: associates member tables (mutating the
table list) and resolves member names to table ids, dropping names with no
matching table. -/
def transformArea (node : AreaNode) (tables : List Table) : Area × List Table :=
  let areaId := "area-" ++ node.name
  let tables := node.tables.foldl (fun ts nm => markTableArea nm areaId ts) tables
  let commonColumns := node.commonColumns.map (List.map transformColumn)
  let tableIds := node.tables.filterMap
    (fun nm => (tables.find? (fun t => t.name = nm)).map (fun t => t.id))
  ({ id := areaId,
     name := node.name,
     tables := tableIds,
     color := node.settings.color,
     pos := match node.settings.posX, node.settings.posY with
            | some x, some y => some ⟨x, y⟩
            | _, _ => none,
     width := node.settings.width,
     height := node.settings.height,
     labelHorizontal := node.settings.labelHorizontal,
     labelVertical := node.settings.labelVertical,
     databaseType := node.settings.databaseType,
     commonColumns := commonColumns,
     note := node.note,
     leadingComments := node.leadingComments }, tables)

/-- The `ast.areas.map(areaNode => transformArea(areaNode, tables))` of
`transformAstToDiagram`: each call mutates the shared table list, so the
mutated list is threaded through. -/
def transformAreas (ans : List AreaNode) (tables : List Table) : List Table × List Area :=
  match ans with
  | [] => (tables, [])
  | a :: rest =>
    let r := transformArea a tables
    let r2 := transformAreas rest r.2
    (r2.1, r.1 :: r2.2)

/-- `transformer.ts` / `transformAstToDiagram`.  `nowMs`/`nowIso` model the
ambient clock (`Date.now()`, `new Date().toISOString()`), the only
non-deterministic inputs of the stage. -/
def transformAstToDiagram (ast : ProgramNode) (options : TransformOptions)
    (nowMs : Nat) (nowIso : String) : Diagram :=
  let diagramId := jsOr options.diagramId ("diagram-" ++ toString nowMs)
  let defaultDatabase := jsOr options.defaultDatabase "PostgreSQL"
  let projectName := jsOr (ast.project.map (fun p => p.name)) "Untitled Project"
  let databaseType := jsOr (ast.project.bind (fun p => p.settings.databaseType)) defaultDatabase
  let projectNote := ast.project.bind (fun p => p.settings.note)
  let tables := ast.tables.map transformTable
  let references := ast.refs.map transformRef
  let r := transformAreas ast.areas tables
  { id := diagramId,
    name := projectName,
    project := some projectName,
    database := some databaseType,
    tables := r.1,
    references := references,
    areas := some r.2,
    note := projectNote,
    createdAt := some nowIso,
    updatedAt := some nowIso }

-- ===========================================================================
-- parser/new/index.ts
-- ===========================================================================

/-- The `columns.find(c => c.name === ...)` + `fk = true` mutation inside
`markForeignKeyColumns`: set the foreign-key flag of the first column with
the given name. -/
def setFkFirst (columnName : String) : List Column → List Column
  | [] => []
  | c :: cs =>
    if c.name = columnName then { c with fk := some true } :: cs
    else c :: setFkFirst columnName cs

/-- One iteration of `markForeignKeyColumns`: mark the from-column of one
reference in the first table whose id matches. -/
def markFkOne (ref : Reference) : List Table → List Table
  | [] => []
  | t :: ts =>
    if t.id = ref.fromTable then
      { t with columns := setFkFirst ref.fromColumn t.columns } :: ts
    else t :: markFkOne ref ts

/-- `index.ts` / `markForeignKeyColumns`. -/
def markForeignKeyColumns (diagram : Diagram) : Diagram :=
  { diagram with tables := diagram.references.foldl (fun ts r => markFkOne r ts) diagram.tables }

/-- `index.ts` / `parseAirDML`: tokenize, parse, transform, mark FK columns.
A `LexerError` aborts with a fatal failure; the parser's recoverable
diagnostics become warnings; the `ParseError`/generic catch branches of the
source are unreachable because `Parser.parse` catches every parser throw and
the transformer is total. -/
def parseAirDML (airDmlText : String) (options : TransformOptions)
    (nowMs : Nat) (nowIso : String) : ParseResult :=
  match tokenize airDmlText with
  | .error e => { success := false, error := some ("字句解析エラー: " ++ e.message) }
  | .ok tokens =>
    let pr := Parser.parse tokens
    let warnings := pr.2.map (fun err =>
      "[" ++ toString err.position.line ++ ":" ++ toString err.position.column ++ "] " ++
      err.message)
    let diagram := markForeignKeyColumns (transformAstToDiagram pr.1 options nowMs nowIso)
    { success := true, diagram := some diagram,
      warnings := if warnings.length > 0 then some warnings else none }

-- ===========================================================================
-- index.ts serializer (exportToAirDML)
-- ===========================================================================

/-- `index.ts` / `getRelationshipSymbol` (default branch yields `>`). -/
def getRelationshipSymbol (relType : Option String) : String :=
  match relType with
  | some s =>
    if s = "many-to-one" then ">"
    else if s = "one-to-many" then "<"
    else if s = "one-to-one" then "-"
    else if s = "many-to-many" then "<>"
    else if s = "any" then "~"
    else if s = "ai-inferred" then "~"
    else ">"
  | none => ">"

/-- `index.ts` / `escapeIdentifier`: quote when any character falls outside
`[A-Za-z0-9_]`, escaping only embedded double quotes. -/
def escapeIdentifier (name : String) : String :=
  let plain (c : Char) : Bool :=
    (decide (65 ≤ c.toNat) && decide (c.toNat ≤ 90)) ||
    (decide (97 ≤ c.toNat) && decide (c.toNat ≤ 122)) ||
    (decide (48 ≤ c.toNat) && decide (c.toNat ≤ 57)) ||
    decide (c.toNat = 95)
  if name.data.any (fun c => !plain c) then
    "\"" ++ (name.data.flatMap (fun c => if c = '"' then ['\\', '"'] else [c])).asString ++ "\""
  else name

/-- `index.ts` / `escapeString`: `''` for a falsy argument, else escape
backslash, double quote, and newline.  (The three sequential global replaces
of the source equal this character-wise map: no replacement output is a
target of a later replace.) -/
def escapeStringJs (str : Option String) : String :=
  match str with
  | none => ""
  | some s =>
    (s.data.flatMap (fun c =>
      if c = '\\' then ['\\', '\\']
      else if c = '"' then ['\\', '"']
      else if c = '\n' then ['\\', 'n']
      else [c])).asString

/-- The regex `^-?\d+(\.\d+)?$` of `formatDefaultValue`. -/
def isNumericLit (s : String) : Bool :=
  let l := if s.data.head? = some '-' then s.data.tail else s.data
  let digits1 (d : List Char) : Bool := !d.isEmpty && d.all Lexer.isDigitC
  match l.splitOn '.' with
  | [d] => digits1 d
  | [d1, d2] => digits1 d1 && digits1 d2
  | _ => false

/-- `index.ts` / `formatDefaultValue`: function-call-looking values get
backticks, numeric/boolean/null literals stay bare, anything else is wrapped
in single quotes. -/
def formatDefaultValue (value : String) : String :=
  if value.data.contains '(' && value.data.contains ')' then
    String.singleton backquote ++ value ++ String.singleton backquote
  else if isNumericLit value || value = "true" || value = "false" || value = "null" then
    value
  else
    String.singleton squote ++ value ++ String.singleton squote

/-- `index.ts` / `formatComments` helper inside `exportToAirDML`. -/
def formatComments (comments : Option (List String)) : String :=
  match comments with
  | none => ""
  | some cs =>
    if cs.isEmpty then ""
    else String.join (cs.map (fun c => "// " ++ c ++ "\n"))

/-- The constraint list rendered for one column (shared by the table and
CommonColumns sections; `withNote` is false in the CommonColumns section,
which does not render notes). -/
def columnConstraintStrings (column : Column) (withNote : Bool) : List String :=
  (if jsTruthyB column.pk then ["pk"] else []) ++
  (if jsTruthyB column.fk then ["fk"] else []) ++
  (if jsTruthyB column.unique then ["unique"] else []) ++
  (if jsTruthyB column.notNull then ["not null"] else []) ++
  (if jsTruthyB column.increment then ["increment"] else []) ++
  (if jsTruthy column.default then
    ["default: " ++ formatDefaultValue (column.default.getD "")] else []) ++
  (if jsTruthy column.logicalName then
    ["alias: \"" ++ escapeStringJs column.logicalName ++ "\""] else []) ++
  (if withNote && jsTruthy column.note then
    ["note: \"" ++ escapeStringJs column.note ++ "\""] else [])

/-- The `type` / `type(params)` text of a column. -/
def columnTypeStr (column : Column) : String :=
  if jsTruthy column.typeParams then
    column.type ++ "(" ++ column.typeParams.getD "" ++ ")"
  else column.type

/-- One rendered column line of a table block. -/
def columnLine (column : Column) : String :=
  let constraints := columnConstraintStrings column true
  let constraintStr :=
    if constraints.length > 0 then " [" ++ String.intercalate ", " constraints ++ "]" else ""
  formatComments column.leadingComments ++ "  " ++ escapeIdentifier column.name ++ " " ++
    columnTypeStr column ++ constraintStr ++ "\n"

/-- One rendered table block of `exportToAirDML`. -/
def tableBlock (table : Table) : String :=
  let tableAttrs : List String :=
    (if jsTruthy table.logicalName then
      ["alias: \"" ++ escapeStringJs table.logicalName ++ "\""] else []) ++
    (match table.pos with
     | some p => ["pos_x: " ++ p.x, "pos_y: " ++ p.y]
     | none => []) ++
    (if jsTruthy table.color then ["color: \"" ++ table.color.getD "" ++ "\""] else [])
  let attrStr :=
    if tableAttrs.length > 0 then " [" ++ String.intercalate ", " tableAttrs ++ "]" else ""
  formatComments table.leadingComments ++
  "Table " ++ escapeIdentifier table.name ++ attrStr ++ " " ++ String.singleton '{' ++ "\n" ++
  String.join (table.columns.map columnLine) ++
  (if jsTruthy table.note then "\n  Note: \"" ++ escapeStringJs table.note ++ "\"\n" else "") ++
  String.singleton '}' ++ "\n\n"

/-- The rendered `Ref: from.col SYM to.col [attrs]\n` line for one reference
whose endpoint tables resolved to `fromTable`/`toTable`: canonical
relationship symbol, optional `swapEdge`/`note` settings. -/
def renderRefLine (fromTable toTable : Table) (ref : Reference) : String :=
  let relSymbol := getRelationshipSymbol ref.type
  let refAttrs : List String :=
    (if jsTruthyB ref.swapEdge then ["swapEdge: true"] else []) ++
    (if jsTruthy ref.note then ["note: \"" ++ escapeStringJs ref.note ++ "\""] else [])
  let attrStr :=
    if refAttrs.length > 0 then " [" ++ String.intercalate ", " refAttrs ++ "]" else ""
  "Ref: " ++ escapeIdentifier fromTable.name ++ "." ++ escapeIdentifier ref.fromColumn ++
    " " ++ relSymbol ++ " " ++ escapeIdentifier toTable.name ++ "." ++
    escapeIdentifier ref.toColumn ++ attrStr ++ "\n"

/-- The `Ref: …` line of one reference, or nothing when either endpoint table
id does not resolve in the diagram's table list. -/
def refLineOf (tables : List Table) (ref : Reference) : Option String :=
  match tables.find? (fun t => t.id = ref.fromTable),
        tables.find? (fun t => t.id = ref.toTable) with
  | some fromTable, some toTable => some (renderRefLine fromTable toTable ref)
  | _, _ => none

/-- What one iteration of the references loop appends: leading comments
always, the reference line only when both endpoints resolve. -/
def refChunk (tables : List Table) (ref : Reference) : String :=
  formatComments ref.leadingComments ++ (refLineOf tables ref).getD ""

/-- One rendered common-column line of an area block (4-space indent, no
note). -/
def commonColumnLine (column : Column) : String :=
  let constraints := columnConstraintStrings column false
  let constraintStr :=
    if constraints.length > 0 then " [" ++ String.intercalate ", " constraints ++ "]" else ""
  "    " ++ escapeIdentifier column.name ++ " " ++ columnTypeStr column ++ constraintStr ++ "\n"

/-- One rendered area block of `exportToAirDML`; empty when the area has no
member table, no common columns, and no note. -/
def areaBlock (tables : List Table) (area : Area) : String :=
  let tablesInArea := tables.filter (fun t => t.areaIds.contains area.id)
  let tableNames := tablesInArea.map (fun t => escapeIdentifier t.name)
  formatComments area.leadingComments ++
  (if tableNames.length > 0 || (area.commonColumns.getD []).length > 0 || jsTruthy area.note then
    let areaAttrs : List String :=
      (match area.pos with
       | some p => ["pos_x: " ++ p.x, "pos_y: " ++ p.y]
       | none => []) ++
      (if jsTruthyNum area.width then ["width: " ++ area.width.getD ""] else []) ++
      (if jsTruthyNum area.height then ["height: " ++ area.height.getD ""] else []) ++
      (if jsTruthy area.color then ["color: \"" ++ area.color.getD "" ++ "\""] else []) ++
      (if jsTruthy area.labelHorizontal then
        ["labelHorizontal: \"" ++ area.labelHorizontal.getD "" ++ "\""] else []) ++
      (if jsTruthy area.labelVertical then
        ["labelVertical: \"" ++ area.labelVertical.getD "" ++ "\""] else [])
    let attrStr :=
      if areaAttrs.length > 0 then " [" ++ String.intercalate ", " areaAttrs ++ "]" else ""
    "Area \"" ++ escapeStringJs (some area.name) ++ "\"" ++ attrStr ++ " " ++
    String.singleton '{' ++ "\n" ++
    String.join (tableNames.map (fun name => "  " ++ name ++ "\n")) ++
    (if jsTruthy area.databaseType then
      "\n  database_type: \"" ++ area.databaseType.getD "" ++ "\"\n" else "") ++
    (match area.commonColumns with
     | some cols =>
       if cols.length > 0 then
         "\n  CommonColumns: [\n" ++ String.join (cols.map commonColumnLine) ++ "  ]\n"
       else ""
     | none => "") ++
    (if jsTruthy area.note then "\n  Note: \"" ++ escapeStringJs area.note ++ "\"\n" else "") ++
    String.singleton '}' ++ "\n\n"
  else "")

/-- JS `String.prototype.trim` over the whitespace characters this serializer
can produce. -/
def jsTrim (s : String) : String :=
  let isWsC (c : Char) : Bool := c = ' ' || c = '\t' || c = '\n' || c = '\r'
  (((s.data.dropWhile isWsC).reverse.dropWhile isWsC).reverse).asString

/-- The references section of `exportToAirDML`. -/
def refsSection (diagram : Diagram) : String :=
  String.join (diagram.references.map (refChunk diagram.tables))

/-- The areas section of `exportToAirDML`. -/
def areasSection (diagram : Diagram) : String :=
  match diagram.areas with
  | some list => if list.length > 0 then String.join (list.map (areaBlock diagram.tables)) else ""
  | none => ""

/-- `index.ts` / `exportToAirDML`: project header, table blocks, reference
lines, a blank line, area blocks, all trimmed. -/
def exportToAirDML (diagram : Diagram) : String :=
  let projectName := jsOr diagram.project (jsOrS diagram.name "Untitled")
  let header :=
    "// " ++ diagram.name ++ "\n" ++
    "Project " ++ escapeIdentifier projectName ++ " " ++ String.singleton '{' ++ "\n" ++
    "  database_type: " ++ String.singleton squote ++ jsOr diagram.database "PostgreSQL" ++
    String.singleton squote ++ "\n" ++
    (if jsTruthy diagram.note then "  Note: \"" ++ escapeStringJs diagram.note ++ "\"\n" else "") ++
    String.singleton '}' ++ "\n\n"
  jsTrim (header ++
    String.join (diagram.tables.map tableBlock) ++
    refsSection diagram ++ "\n" ++
    areasSection diagram)

-- ===========================================================================
-- Theorems
-- ===========================================================================

/-- Fallback diagram used to project `ParseResult.diagram` without binders. -/
def emptyDiagram : Diagram := { id := "", name := "", tables := [], references := [] }

section ForeignKeyMarking

/-- The first column named `r.fromColumn` of the first table with id
`r.fromTable` carries `fk = true`. -/
def FkMarked (tables : List Table) (r : Reference) : Prop :=
  ∀ t, tables.find? (fun t => t.id = r.fromTable) = some t →
    ∀ c, t.columns.find? (fun c => c.name = r.fromColumn) = some c → c.fk = some true

theorem setFkFirst_found (n : String) :
    ∀ cols c, (setFkFirst n cols).find? (fun c => c.name = n) = some c → c.fk = some true := by
  intro cols
  induction cols with
  | nil => intro c h; simp [setFkFirst] at h
  | cons c0 cs ih =>
    intro c h
    by_cases h0 : c0.name = n
    · rw [setFkFirst, if_pos h0] at h
      rw [List.find?_cons_of_pos _ (by simpa using h0)] at h
      cases h
      rfl
    · rw [setFkFirst, if_neg h0] at h
      rw [List.find?_cons_of_neg _ (by simpa using h0)] at h
      exact ih c h

theorem setFkFirst_pres (n' n : String) :
    ∀ cols, (∀ c, cols.find? (fun c => c.name = n) = some c → c.fk = some true) →
      ∀ c, (setFkFirst n' cols).find? (fun c => c.name = n) = some c → c.fk = some true := by
  intro cols
  induction cols with
  | nil => intro _ c h; simp [setFkFirst] at h
  | cons c0 cs ih =>
    intro hyp c h
    by_cases h0 : c0.name = n'
    · rw [setFkFirst, if_pos h0] at h
      by_cases hn : c0.name = n
      · rw [List.find?_cons_of_pos _ (by simpa using hn)] at h
        cases h
        rfl
      · rw [List.find?_cons_of_neg _ (by simpa using hn)] at h
        exact hyp c (by rw [List.find?_cons_of_neg _ (by simpa using hn)]; exact h)
    · rw [setFkFirst, if_neg h0] at h
      by_cases hn : c0.name = n
      · rw [List.find?_cons_of_pos _ (by simpa using hn)] at h
        exact hyp c (by rw [List.find?_cons_of_pos _ (by simpa using hn)]; exact h)
      · rw [List.find?_cons_of_neg _ (by simpa using hn)] at h
        refine ih (fun c hc => hyp c ?_) c h
        rw [List.find?_cons_of_neg _ (by simpa using hn)]
        exact hc

theorem markFkOne_marks (r : Reference) :
    ∀ ts, FkMarked (markFkOne r ts) r := by
  intro ts
  induction ts with
  | nil => intro t h; simp [markFkOne] at h
  | cons t0 ts ih =>
    intro t h c hc
    by_cases h0 : t0.id = r.fromTable
    · rw [markFkOne, if_pos h0] at h
      rw [List.find?_cons_of_pos _ (by simpa using h0)] at h
      cases h
      exact setFkFirst_found _ _ c hc
    · rw [markFkOne, if_neg h0] at h
      rw [List.find?_cons_of_neg _ (by simpa using h0)] at h
      exact ih t h c hc

theorem markFkOne_pres (r' r : Reference) :
    ∀ ts, FkMarked ts r → FkMarked (markFkOne r' ts) r := by
  intro ts
  induction ts with
  | nil => intro _ t h; simp [markFkOne] at h
  | cons t0 ts ih =>
    intro hyp t h c hc
    by_cases h0 : t0.id = r'.fromTable
    · rw [markFkOne, if_pos h0] at h
      by_cases hn : t0.id = r.fromTable
      · rw [List.find?_cons_of_pos _ (by simpa using hn)] at h
        cases h
        have hyp0 := hyp t0 (by rw [List.find?_cons_of_pos _ (by simpa using hn)])
        exact setFkFirst_pres _ _ _ hyp0 c hc
      · rw [List.find?_cons_of_neg _ (by simpa using hn)] at h
        exact hyp t (by rw [List.find?_cons_of_neg _ (by simpa using hn)]; exact h) c hc
    · rw [markFkOne, if_neg h0] at h
      by_cases hn : t0.id = r.fromTable
      · rw [List.find?_cons_of_pos _ (by simpa using hn)] at h
        exact hyp t (by rw [List.find?_cons_of_pos _ (by simpa using hn)]; exact h) c hc
      · rw [List.find?_cons_of_neg _ (by simpa using hn)] at h
        refine ih (fun t ht => hyp t ?_) t h c hc
        rw [List.find?_cons_of_neg _ (by simpa using hn)]
        exact ht

theorem foldl_markFkOne_pres (r : Reference) :
    ∀ (refs : List Reference) (ts : List Table), FkMarked ts r →
      FkMarked (refs.foldl (fun ts r => markFkOne r ts) ts) r := by
  intro refs
  induction refs with
  | nil => intro ts h; exact h
  | cons r0 rest ih =>
    intro ts h
    exact ih _ (markFkOne_pres r0 r ts h)

theorem foldl_markFkOne_marks :
    ∀ (refs : List Reference) (ts : List Table), ∀ r ∈ refs,
      FkMarked (refs.foldl (fun ts r => markFkOne r ts) ts) r := by
  intro refs
  induction refs with
  | nil => intro ts r hr; cases hr
  | cons r0 rest ih =>
    intro ts r hr
    rcases List.mem_cons.mp hr with h | h
    · subst h
      exact foldl_markFkOne_pres r rest _ (markFkOne_marks r ts)
    · exact ih _ r h

theorem markForeignKeyColumns_marks (d : Diagram) :
    ∀ r ∈ (markForeignKeyColumns d).references, FkMarked (markForeignKeyColumns d).tables r := by
  intro r hr
  exact foldl_markFkOne_marks d.references d.tables r hr

/-- C1: for every input text that parses successfully and every reference in
the resulting diagram, the (first) column named by the reference's
from-endpoint in the (first) table whose id matches the from-table endpoint
has its foreign-key flag forced to `some true` after lowering, whether or
not the source declared `[fk]`. -/
theorem fromColumn_fk_marked (s : String) (opts : TransformOptions) (nowMs : Nat)
    (nowIso : String)
    (_hs : (parseAirDML s opts nowMs nowIso).success = true) :
    ∀ r ∈ ((parseAirDML s opts nowMs nowIso).diagram.getD emptyDiagram).references,
    ∀ t, ((parseAirDML s opts nowMs nowIso).diagram.getD emptyDiagram).tables.find?
          (fun t => t.id = r.fromTable) = some t →
    ∀ c, t.columns.find? (fun c => c.name = r.fromColumn) = some c →
    c.fk = some true := by
  intro r hr t ht c hc
  unfold parseAirDML at hr ht
  cases htok : tokenize s with
  | error e => rw [htok] at hr; simp [emptyDiagram] at hr
  | ok tokens =>
    rw [htok] at hr ht
    simp only [Option.getD_some] at hr ht
    exact markForeignKeyColumns_marks _ r hr t ht c hc

/-- Witness for `fromColumn_fk_marked` at the concrete input
`Table t { a int }` + `Ref: t.a > u.b`: column `a` was never declared `[fk]`
yet ends with `fk = some true`. -/
theorem fromColumn_fk_marked_witness :
    ({ name := "a", type := "integer", fk := some true : Column }).fk = some true := by
  refine fromColumn_fk_marked ("Table t " ++ String.singleton '{' ++ " a int " ++
    String.singleton '}' ++ "\nRef: t.a > u.b") {} 0 "" (by decide)
    { id := "ref-t-a-u-b", fromTable := "table-t", fromColumn := "a",
      toTable := "table-u", toColumn := "b", type := some "many-to-one" }
    (by decide)
    { id := "table-t", name := "t",
      columns := [{ name := "a", type := "integer", fk := some true }] }
    (by decide)
    { name := "a", type := "integer", fk := some true }
    (by decide)

end ForeignKeyMarking

section AreaIdNodup

/-- Every table in the list has duplicate-free `areaIds`. -/
def NodupAreas (ts : List Table) : Prop := ∀ t ∈ ts, t.areaIds.Nodup

theorem markTableArea_nodup (nm areaId : String) :
    ∀ ts, NodupAreas ts → NodupAreas (markTableArea nm areaId ts) := by
  intro ts
  induction ts with
  | nil => intro h; exact h
  | cons t0 ts ih =>
    intro h t' ht'
    rw [markTableArea] at ht'
    by_cases h0 : t0.name = nm
    · rw [if_pos h0] at ht'
      rcases List.mem_cons.mp ht' with h1 | h1
      · by_cases hmem : areaId ∈ t0.areaIds
        · rw [if_pos hmem] at h1
          subst h1
          exact h _ (List.mem_cons_self _ _)
        · rw [if_neg hmem] at h1
          subst h1
          have h2 : (t0.areaIds.concat areaId).Nodup :=
            List.Nodup.concat hmem (h t0 (List.mem_cons_self _ _))
          simpa [List.concat_eq_append] using h2
      · exact h t' (List.mem_cons_of_mem _ h1)
    · rw [if_neg h0] at ht'
      rcases List.mem_cons.mp ht' with h1 | h1
      · subst h1; exact h t' (List.mem_cons_self _ _)
      · exact ih (fun t ht => h t (List.mem_cons_of_mem _ ht)) t' h1

theorem foldl_markTableArea_nodup (areaId : String) :
    ∀ (names : List String) (ts : List Table), NodupAreas ts →
      NodupAreas (names.foldl (fun ts nm => markTableArea nm areaId ts) ts) := by
  intro names
  induction names with
  | nil => intro ts h; exact h
  | cons nm rest ih => intro ts h; exact ih _ (markTableArea_nodup nm areaId ts h)

theorem transformArea_nodup (an : AreaNode) (ts : List Table) :
    NodupAreas ts → NodupAreas (transformArea an ts).2 := by
  intro h
  exact foldl_markTableArea_nodup _ an.tables ts h

theorem transformAreas_nodup :
    ∀ (ans : List AreaNode) (ts : List Table), NodupAreas ts →
      NodupAreas (transformAreas ans ts).1 := by
  intro ans
  induction ans with
  | nil => intro ts h; exact h
  | cons a rest ih => intro ts h; exact ih _ (transformArea_nodup a ts h)

theorem setFkFirst_areaIds_irrelevant : True := trivial

theorem markFkOne_nodup (r : Reference) :
    ∀ ts, NodupAreas ts → NodupAreas (markFkOne r ts) := by
  intro ts
  induction ts with
  | nil => intro h; exact h
  | cons t0 ts ih =>
    intro h t' ht'
    rw [markFkOne] at ht'
    by_cases h0 : t0.id = r.fromTable
    · rw [if_pos h0] at ht'
      rcases List.mem_cons.mp ht' with h1 | h1
      · subst h1; exact h t0 (List.mem_cons_self _ _)
      · exact h t' (List.mem_cons_of_mem _ h1)
    · rw [if_neg h0] at ht'
      rcases List.mem_cons.mp ht' with h1 | h1
      · subst h1; exact h t' (List.mem_cons_self _ _)
      · exact ih (fun t ht => h t (List.mem_cons_of_mem _ ht)) t' h1

theorem foldl_markFkOne_nodup :
    ∀ (refs : List Reference) (ts : List Table), NodupAreas ts →
      NodupAreas (refs.foldl (fun ts r => markFkOne r ts) ts) := by
  intro refs
  induction refs with
  | nil => intro ts h; exact h
  | cons r rest ih => intro ts h; exact ih _ (markFkOne_nodup r ts h)

theorem transformAstToDiagram_nodupAreas (ast : ProgramNode) (opts : TransformOptions)
    (nowMs : Nat) (nowIso : String) :
    NodupAreas (transformAstToDiagram ast opts nowMs nowIso).tables := by
  refine transformAreas_nodup ast.areas _ ?_
  intro t ht
  rcases List.mem_map.mp ht with ⟨tn, _, rfl⟩
  simp [transformTable]

/-- C10: after lowering (and foreign-key marking) any parsed document, every
table's `areaIds` list is duplicate-free — the `includes` guard in
`transformArea` prevents duplicates even when an area body repeats a table
name or two areas share a name (and hence an id). -/
theorem areaIds_nodup :
    (∀ (ast : ProgramNode) (opts : TransformOptions) (nowMs : Nat) (nowIso : String),
      ∀ t ∈ (transformAstToDiagram ast opts nowMs nowIso).tables, t.areaIds.Nodup) ∧
    (∀ (s : String) (opts : TransformOptions) (nowMs : Nat) (nowIso : String),
      ∀ t ∈ ((parseAirDML s opts nowMs nowIso).diagram.getD emptyDiagram).tables,
        t.areaIds.Nodup) := by
  constructor
  · intro ast opts nowMs nowIso
    exact transformAstToDiagram_nodupAreas ast opts nowMs nowIso
  · intro s opts nowMs nowIso t ht
    unfold parseAirDML at ht
    cases htok : tokenize s with
    | error e => rw [htok] at ht; simp [emptyDiagram] at ht
    | ok tokens =>
      rw [htok] at ht
      simp only [Option.getD_some] at ht
      refine foldl_markFkOne_nodup _ _ (transformAstToDiagram_nodupAreas _ _ _ _) t ht

end AreaIdNodup

section AreaMembership

/-- Table skeleton preservation: id and name unchanged, `areaIds` only
grows.  Every table-list transformation performed while processing areas
respects it pointwise. -/
def TRel (t t' : Table) : Prop :=
  t.id = t'.id ∧ t.name = t'.name ∧ t.areaIds ⊆ t'.areaIds

/-- Pointwise skeleton preservation of whole table lists. -/
def Rel : List Table → List Table → Prop := List.Forall₂ TRel

theorem TRel.reflTR (t : Table) : TRel t t := ⟨rfl, rfl, List.Subset.refl _⟩

theorem TRel.transTR {a b c : Table} (h1 : TRel a b) (h2 : TRel b c) : TRel a c :=
  ⟨h1.1.trans h2.1, h1.2.1.trans h2.2.1, h1.2.2.trans h2.2.2⟩

theorem Rel.reflR (ts : List Table) : Rel ts ts :=
  List.forall₂_same.mpr (fun t _ => TRel.reflTR t)

theorem Rel.transR : ∀ {a b c : List Table}, Rel a b → Rel b c → Rel a c := by
  intro a b c h1 h2
  induction h1 generalizing c with
  | nil => cases h2; exact List.Forall₂.nil
  | cons hab h ih =>
    cases h2 with
    | cons hbc h2 => exact List.Forall₂.cons (hab.transTR hbc) (ih h2)

theorem rel_mem : ∀ {ts ts' : List Table}, Rel ts ts' →
    ∀ t ∈ ts, ∃ t' ∈ ts', TRel t t' := by
  intro ts ts' h
  induction h with
  | nil => intro t ht; cases ht
  | cons hr _ ih =>
    intro t ht
    rcases List.mem_cons.mp ht with rfl | ht
    · exact ⟨_, List.mem_cons_self _ _, hr⟩
    · rcases ih t ht with ⟨t', ht', hrel⟩
      exact ⟨t', List.mem_cons_of_mem _ ht', hrel⟩

theorem rel_find? : ∀ {ts ts' : List Table}, Rel ts ts' → ∀ (nm : String) (t : Table),
    ts.find? (fun x => x.name = nm) = some t →
    ∃ t', ts'.find? (fun x => x.name = nm) = some t' ∧ TRel t t' := by
  intro ts ts' h
  induction h with
  | nil => intro nm t ht; simp at ht
  | @cons a b l1 l2 hr hl ih =>
    intro nm t ht
    by_cases hn : a.name = nm
    · rw [List.find?_cons_of_pos _ (by simpa using hn)] at ht
      cases ht
      exact ⟨b, List.find?_cons_of_pos _ (by simp [← hr.2.1, hn]), hr⟩
    · rw [List.find?_cons_of_neg _ (by simpa using hn)] at ht
      rcases ih nm t ht with ⟨t', ht', hrel⟩
      refine ⟨t', ?_, hrel⟩
      rw [List.find?_cons_of_neg _ (by simp [← hr.2.1, hn])]
      exact ht'

theorem rel_exists_name {ts ts' : List Table} (h : Rel ts ts') {nm : String}
    (hex : ∃ t ∈ ts, t.name = nm) : ∃ t' ∈ ts', t'.name = nm := by
  rcases hex with ⟨t, ht, rfl⟩
  rcases rel_mem h t ht with ⟨t', ht', hrel⟩
  exact ⟨t', ht', hrel.2.1.symm⟩

theorem markTableArea_rel (nm areaId : String) :
    ∀ ts, Rel ts (markTableArea nm areaId ts) := by
  intro ts
  induction ts with
  | nil => exact List.Forall₂.nil
  | cons t0 ts ih =>
    rw [markTableArea]
    by_cases h0 : t0.name = nm
    · rw [if_pos h0]
      refine List.Forall₂.cons ?_ (Rel.reflR ts)
      by_cases hmem : areaId ∈ t0.areaIds
      · rw [if_pos hmem]; exact TRel.reflTR t0
      · rw [if_neg hmem]
        exact ⟨rfl, rfl, fun a ha => List.mem_append_left _ ha⟩
    · rw [if_neg h0]
      exact List.Forall₂.cons (TRel.reflTR t0) ih

theorem foldl_markTableArea_rel (areaId : String) :
    ∀ (names : List String) (ts : List Table),
      Rel ts (names.foldl (fun ts nm => markTableArea nm areaId ts) ts) := by
  intro names
  induction names with
  | nil => intro ts; exact Rel.reflR ts
  | cons nm rest ih =>
    intro ts
    exact (markTableArea_rel nm areaId ts).transR (ih _)

theorem transformArea_rel (an : AreaNode) (ts : List Table) :
    Rel ts (transformArea an ts).2 :=
  foldl_markTableArea_rel _ an.tables ts

theorem transformAreas_rel :
    ∀ (ans : List AreaNode) (ts : List Table), Rel ts (transformAreas ans ts).1 := by
  intro ans
  induction ans with
  | nil => intro ts; exact Rel.reflR ts
  | cons a rest ih =>
    intro ts
    exact (transformArea_rel a ts).transR (ih _)

theorem markTableArea_found (nm areaId : String) :
    ∀ ts t, (markTableArea nm areaId ts).find? (fun x => x.name = nm) = some t →
      areaId ∈ t.areaIds := by
  intro ts
  induction ts with
  | nil => intro t h; simp [markTableArea] at h
  | cons t0 ts ih =>
    intro t h
    rw [markTableArea] at h
    by_cases h0 : t0.name = nm
    · rw [if_pos h0] at h
      by_cases hmem : areaId ∈ t0.areaIds
      · rw [if_pos hmem] at h
        rw [List.find?_cons_of_pos _ (by simpa using h0)] at h
        cases h
        exact hmem
      · rw [if_neg hmem] at h
        rw [List.find?_cons_of_pos _ (by simpa using h0)] at h
        cases h
        exact List.mem_append_right _ (List.mem_singleton.mpr rfl)
    · rw [if_neg h0] at h
      rw [List.find?_cons_of_neg _ (by simpa using h0)] at h
      exact ih t h

theorem markTableArea_names (nm areaId : String) {ts : List Table} {nm' : String}
    (hex : ∃ t ∈ ts, t.name = nm') :
    ∃ t ∈ markTableArea nm areaId ts, t.name = nm' :=
  rel_exists_name (markTableArea_rel nm areaId ts) hex

theorem find?_of_exists_name {ts : List Table} {nm : String}
    (hex : ∃ t ∈ ts, t.name = nm) :
    ∃ t, ts.find? (fun x => x.name = nm) = some t := by
  have h : (ts.find? (fun x => x.name = nm)).isSome := by
    rw [List.find?_isSome]
    rcases hex with ⟨t, ht, rfl⟩
    exact ⟨t, ht, by simp⟩
  exact Option.isSome_iff_exists.mp h

/-- Inside `transformArea`: a listed member name that resolves against the
incoming table list ends up associated in both directions. -/
theorem transformArea_assoc (an : AreaNode) (ts : List Table) (nm : String)
    (hnm : nm ∈ an.tables) (hex : ∃ t ∈ ts, t.name = nm) :
    ∃ t, (transformArea an ts).2.find? (fun x => x.name = nm) = some t ∧
      ("area-" ++ an.name) ∈ t.areaIds ∧ t.id ∈ (transformArea an ts).1.tables := by
  rcases List.append_of_mem hnm with ⟨l1, l2, htl⟩
  have hfold : (transformArea an ts).2 =
      l2.foldl (fun ts nm => markTableArea nm ("area-" ++ an.name) ts)
        (markTableArea nm ("area-" ++ an.name)
          (l1.foldl (fun ts nm => markTableArea nm ("area-" ++ an.name) ts) ts)) := by
    simp only [transformArea, htl, List.foldl_append, List.foldl_cons]
  have hex1 : ∃ t ∈ l1.foldl (fun ts nm => markTableArea nm ("area-" ++ an.name) ts) ts,
      t.name = nm := rel_exists_name (foldl_markTableArea_rel _ l1 ts) hex
  have hex2 := markTableArea_names nm ("area-" ++ an.name) hex1
  rcases find?_of_exists_name hex2 with ⟨t2, ht2⟩
  have hmem2 : ("area-" ++ an.name) ∈ t2.areaIds := markTableArea_found _ _ _ _ ht2
  rcases rel_find? (foldl_markTableArea_rel ("area-" ++ an.name) l2 _) nm t2 ht2 with
    ⟨t3, ht3, hrel⟩
  have ht3' : (transformArea an ts).2.find? (fun x => x.name = nm) = some t3 := by
    rw [hfold]; exact ht3
  refine ⟨t3, ht3', hrel.2.2 hmem2, ?_⟩
  have : (transformArea an ts).1.tables = an.tables.filterMap
      (fun nm => ((transformArea an ts).2.find? (fun t => t.name = nm)).map (fun t => t.id)) := by
    simp only [transformArea]
  rw [this]
  exact List.mem_filterMap.mpr ⟨nm, hnm, by rw [ht3']; rfl⟩

theorem transformAreas_mem :
    ∀ (ans : List AreaNode) (ts : List Table) (a : AreaNode), a ∈ ans →
      ∃ ts1, Rel ts ts1 ∧ (transformArea a ts1).1 ∈ (transformAreas ans ts).2 ∧
        Rel (transformArea a ts1).2 (transformAreas ans ts).1 := by
  intro ans
  induction ans with
  | nil => intro ts a ha; cases ha
  | cons a0 rest ih =>
    intro ts a ha
    rcases List.mem_cons.mp ha with rfl | ha
    · refine ⟨ts, Rel.reflR ts, ?_, ?_⟩
      · show _ ∈ (transformArea a ts).1 :: (transformAreas rest (transformArea a ts).2).2
        exact List.mem_cons_self _ _
      · show Rel _ (transformAreas rest (transformArea a ts).2).1
        exact transformAreas_rel rest _
    · rcases ih (transformArea a0 ts).2 a ha with ⟨ts1, hrel1, hmem, hrel2⟩
      refine ⟨ts1, (transformArea_rel a0 ts).transR hrel1, ?_, ?_⟩
      · show _ ∈ (transformArea a0 ts).1 :: (transformAreas rest (transformArea a0 ts).2).2
        exact List.mem_cons_of_mem _ hmem
      · exact hrel2

/-- C5: for every document, every area and every member name it lists: when a
table with that name exists anywhere in the document, lowering records the
membership in both directions (the table's `areaIds` contains the area's id
and the area's resolved member list contains the table's id), regardless of
declaration order; and every id in the resolved member list comes from a
table of the document whose name the area listed (unmatched names are
dropped). -/
theorem area_membership_resolution (ast : ProgramNode) (opts : TransformOptions)
    (nowMs : Nat) (nowIso : String) :
    ∀ a ∈ ast.areas,
      ∃ ar ∈ ((transformAstToDiagram ast opts nowMs nowIso).areas.getD []),
        ar.id = "area-" ++ a.name ∧
        (∀ nm ∈ a.tables, (∃ tn ∈ ast.tables, tn.name = nm) →
          ∃ t, (transformAstToDiagram ast opts nowMs nowIso).tables.find?
                (fun x => x.name = nm) = some t ∧
            ar.id ∈ t.areaIds ∧ t.id ∈ ar.tables) ∧
        (∀ tid ∈ ar.tables, ∃ t ∈ (transformAstToDiagram ast opts nowMs nowIso).tables,
          t.id = tid ∧ t.name ∈ a.tables) := by
  intro a ha
  have htab : (transformAstToDiagram ast opts nowMs nowIso).tables =
      (transformAreas ast.areas (ast.tables.map transformTable)).1 := rfl
  have hare : ((transformAstToDiagram ast opts nowMs nowIso).areas.getD []) =
      (transformAreas ast.areas (ast.tables.map transformTable)).2 := rfl
  rcases transformAreas_mem ast.areas (ast.tables.map transformTable) a ha with
    ⟨ts1, hrel1, hmem, hrel2⟩
  refine ⟨(transformArea a ts1).1, by rw [hare]; exact hmem, by simp [transformArea], ?_, ?_⟩
  · intro nm hnm hex
    have hex0 : ∃ t ∈ ast.tables.map transformTable, t.name = nm := by
      rcases hex with ⟨tn, htn, rfl⟩
      exact ⟨transformTable tn, List.mem_map_of_mem _ htn, rfl⟩
    have hex1 := rel_exists_name hrel1 hex0
    rcases transformArea_assoc a ts1 nm hnm hex1 with ⟨t2, ht2, hid2, hmem2⟩
    rcases rel_find? hrel2 nm t2 ht2 with ⟨t3, ht3, hrel3⟩
    refine ⟨t3, by rw [htab]; exact ht3, ?_, ?_⟩
    · simp only [transformArea]
      exact hrel3.2.2 hid2
    · rw [← hrel3.1]
      exact hmem2
  · intro tid htid
    have harTables : (transformArea a ts1).1.tables = a.tables.filterMap
        (fun nm => ((transformArea a ts1).2.find? (fun t => t.name = nm)).map
          (fun t => t.id)) := by
      simp only [transformArea]
    rw [harTables] at htid
    rcases List.mem_filterMap.mp htid with ⟨nm, hnm, hfm⟩
    rcases Option.map_eq_some'.mp hfm with ⟨t2, ht2, hid⟩
    have ht2mem : t2 ∈ (transformArea a ts1).2 := List.mem_of_find?_eq_some ht2
    have ht2name : t2.name = nm := by
      have := List.find?_some ht2
      simpa using this
    rcases rel_mem hrel2 t2 ht2mem with ⟨t3, ht3, hrel3⟩
    refine ⟨t3, by rw [htab]; exact ht3, ?_, ?_⟩
    · rw [← hrel3.1]; exact hid
    · rw [← hrel3.2.1, ht2name]; exact hnm

/-- Trivial source range for concrete AST literals. -/
def c5range : SourceRange := ⟨⟨1, 1, 0⟩, ⟨1, 1, 0⟩⟩

/-- Concrete area node listing the single table name `t`. -/
def c5area : AreaNode :=
  { range := c5range, name := "ar", tables := ["t"], settings := {} }

/-- Concrete one-table, one-area document for the C5 witness. -/
def c5ast : ProgramNode :=
  { range := c5range,
    tables := [{ range := c5range, name := "t", columns := [], settings := {} }],
    refs := [], areas := [c5area] }

/-- Witness for `area_membership_resolution` at the concrete document
`c5ast`. -/
theorem area_membership_resolution_witness :
    ∃ ar ∈ ((transformAstToDiagram c5ast {} 0 "").areas.getD []),
      ar.id = "area-" ++ c5area.name ∧
      (∀ nm ∈ c5area.tables, (∃ tn ∈ c5ast.tables, tn.name = nm) →
        ∃ t, (transformAstToDiagram c5ast {} 0 "").tables.find?
              (fun x => x.name = nm) = some t ∧
          ar.id ∈ t.areaIds ∧ t.id ∈ ar.tables) ∧
      (∀ tid ∈ ar.tables, ∃ t ∈ (transformAstToDiagram c5ast {} 0 "").tables,
        t.id = tid ∧ t.name ∈ c5area.tables) :=
  area_membership_resolution c5ast {} 0 "" c5area (by decide)

end AreaMembership

section RefIdDerivation

/-- Splitting a separator-free prefix off a separated concatenation. -/
theorem sep_split {a b a' b' : List Char} (ha : '-' ∉ a) (ha' : '-' ∉ a')
    (h : a ++ '-' :: b = a' ++ '-' :: b') : a = a' ∧ b = b' := by
  induction a generalizing a' with
  | nil =>
    cases a' with
    | nil => simpa using h
    | cons y ys =>
      exfalso
      rw [List.nil_append] at h
      have hy : y = '-' := by
        have := congrArg (fun l => l.head?) h
        simpa using this.symm
      exact ha' (hy ▸ List.mem_cons_self _ _)
  | cons x xs ih =>
    cases a' with
    | nil =>
      exfalso
      rw [List.nil_append] at h
      have hx : x = '-' := by
        have := congrArg (fun l => l.head?) h
        simpa using this
      exact ha (hx ▸ List.mem_cons_self _ _)
    | cons y ys =>
      simp only [List.cons_append, List.cons.injEq] at h
      have hxs : xs = ys ∧ b = b' :=
        ih (fun hm => ha (List.mem_cons_of_mem _ hm))
          (fun hm => ha' (List.mem_cons_of_mem _ hm)) h.2
      exact ⟨by rw [h.1, hxs.1], hxs.2⟩

/-- C6 (amended): the reference-id derivation is injective on endpoint
quadruples whose names contain no hyphen — two references with different
hyphen-free quadruples never collide. -/
theorem refId_injective (r1 r2 : RefNode)
    (hf1 : '-' ∉ r1.fromEp.table.data) (hf2 : '-' ∉ r1.fromEp.column.data)
    (hf3 : '-' ∉ r1.toEp.table.data) (_hf4 : '-' ∉ r1.toEp.column.data)
    (hg1 : '-' ∉ r2.fromEp.table.data) (hg2 : '-' ∉ r2.fromEp.column.data)
    (hg3 : '-' ∉ r2.toEp.table.data) (_hg4 : '-' ∉ r2.toEp.column.data)
    (hne : (r1.fromEp.table, r1.fromEp.column, r1.toEp.table, r1.toEp.column) ≠
           (r2.fromEp.table, r2.fromEp.column, r2.toEp.table, r2.toEp.column)) :
    (transformRef r1).id ≠ (transformRef r2).id := by
  intro h
  apply hne
  have hd : ("ref-" ++ r1.fromEp.table ++ "-" ++ r1.fromEp.column ++ "-" ++
      r1.toEp.table ++ "-" ++ r1.toEp.column).data =
      ("ref-" ++ r2.fromEp.table ++ "-" ++ r2.fromEp.column ++ "-" ++
      r2.toEp.table ++ "-" ++ r2.toEp.column).data := congrArg String.data h
  have hx : "-".data = ['-'] := rfl
  have hr : "ref-".data = ['r', 'e', 'f', '-'] := rfl
  simp only [String.data_append, hx, hr, List.append_assoc, List.singleton_append,
    List.cons_append, List.nil_append, List.cons.injEq, true_and] at hd
  obtain ⟨e1, hd⟩ := sep_split hf1 hg1 hd
  obtain ⟨e2, hd⟩ := sep_split hf2 hg2 hd
  obtain ⟨e3, e4⟩ := sep_split hf3 hg3 hd
  simp [Prod.ext_iff, String.ext_iff, e1, e2, e3, e4]

/-- Witness for `refId_injective` at two concrete references sharing one
endpoint. -/
theorem refId_injective_witness :
    (transformRef ⟨⟨⟨1, 1, 0⟩, ⟨1, 1, 0⟩⟩, none, ⟨"a", "b"⟩, ⟨"c", "d"⟩, .gt, {}, none⟩).id ≠
    (transformRef ⟨⟨⟨1, 1, 0⟩, ⟨1, 1, 0⟩⟩, none, ⟨"a", "x"⟩, ⟨"c", "d"⟩, .gt, {}, none⟩).id :=
  refId_injective _ _ (by decide) (by decide) (by decide) (by decide) (by decide)
    (by decide) (by decide) (by decide) (by decide)

/-- Input with two structurally distinct references (quoted names containing
hyphens) whose derived ids collide. -/
def c6input : String :=
  "Ref: \"a-b\".c > d.e\nRef: a.\"b-c\" > d.e"

/-- C6 (counterexample): after parsing and lowering `c6input`, the two
references have endpoint quadruples that differ in the from-endpoint, yet
their generated ids are both `ref-a-b-c-d-e` — the id derivation is not
injective on quadruples once names may contain `-` (e.g. supplied as quoted
strings), refuting the claim as stated. -/
theorem refId_collision :
    (((parseAirDML c6input {} 0 "").diagram.getD emptyDiagram).references.map
      (fun r => (r.id, r.fromTable, r.fromColumn, r.toTable, r.toColumn))) =
      [("ref-a-b-c-d-e", "table-a-b", "c", "table-d", "e"),
       ("ref-a-b-c-d-e", "table-a", "b-c", "table-d", "e")] ∧
    ("table-a-b", "c") ≠ ("table-a", "b-c") := by
  constructor
  · decide
  · decide

end RefIdDerivation

section SerializerRefLines

theorem length_filterMap_eq_length_filter {α β : Type} (f : α → Option β) :
    ∀ l : List α, (l.filterMap f).length = (l.filter (fun x => (f x).isSome)).length := by
  intro l
  induction l with
  | nil => rfl
  | cons x xs ih => cases hfx : f x <;> simp [List.filterMap_cons, List.filter_cons, hfx, ih]

theorem refLineOf_isSome (ts : List Table) (r : Reference) :
    (refLineOf ts r).isSome =
      ((ts.find? (fun t => t.id = r.fromTable)).isSome &&
       (ts.find? (fun t => t.id = r.toTable)).isSome) := by
  unfold refLineOf
  cases h1 : ts.find? (fun t => t.id = r.fromTable) <;>
    cases h2 : ts.find? (fun t => t.id = r.toTable) <;> simp

/-- C8 (amended): the serializer emits exactly one reference line for every
reference **both of whose endpoint table ids resolve** in the diagram's
table list; a resolvable reference is rendered with `renderRefLine`
(canonical relationship symbol, optional edge-swap/note settings) and an
unresolvable one is silently dropped.  (`exportToAirDML` is a total Lean
function, so purity/totality holds by construction.) -/
theorem serialize_ref_lines (d : Diagram) :
    (d.references.filterMap (refLineOf d.tables)).length =
      (d.references.filter (fun r =>
        ((d.tables.find? (fun t => t.id = r.fromTable)).isSome &&
         (d.tables.find? (fun t => t.id = r.toTable)).isSome))).length ∧
    (∀ r ∈ d.references, ∀ ft, d.tables.find? (fun t => t.id = r.fromTable) = some ft →
      ∀ tt, d.tables.find? (fun t => t.id = r.toTable) = some tt →
      refLineOf d.tables r = some (renderRefLine ft tt r)) ∧
    (∀ r ∈ d.references,
      (d.tables.find? (fun t => t.id = r.fromTable) = none ∨
       d.tables.find? (fun t => t.id = r.toTable) = none) →
      refLineOf d.tables r = none) := by
  refine ⟨?_, ?_, ?_⟩
  · rw [length_filterMap_eq_length_filter]
    congr 1
    exact List.filter_congr (fun r _ => refLineOf_isSome d.tables r)
  · intro r _ ft hft tt htt
    unfold refLineOf
    rw [hft, htt]
  · intro r _ h
    unfold refLineOf
    rcases h with h | h
    · rw [h]
    · rw [h]
      cases d.tables.find? (fun t => t.id = r.fromTable) <;> rfl

/-- Concrete table and reference for the `serialize_ref_lines` witness. -/
def c8table : Table :=
  { id := "table-a", name := "a", columns := [{ name := "x", type := "integer" }] }

def c8ref : Reference :=
  { id := "ref-a-x-a-x", fromTable := "table-a", fromColumn := "x",
    toTable := "table-a", toColumn := "x", type := some "many-to-one" }

/-- One-table, one-reference diagram for the `serialize_ref_lines` witness. -/
def c8diag : Diagram :=
  { id := "d", name := "P", tables := [c8table], references := [c8ref] }

/-- Witness for `serialize_ref_lines`: with one resolvable reference, the
serializer emits exactly its rendered line. -/
theorem serialize_ref_lines_witness :
    refLineOf c8diag.tables c8ref = some (renderRefLine c8table c8table c8ref) :=
  (serialize_ref_lines c8diag).2.1 c8ref (List.mem_cons_self _ _) c8table (by decide)
    c8table (by decide)

/-- Diagram with one reference whose endpoint tables are not in the table
list. -/
def c8dangling : Diagram :=
  { id := "d", name := "P", tables := [],
    references := [{ id := "r", fromTable := "table-a", fromColumn := "x",
                     toTable := "table-b", toColumn := "y", type := some "many-to-one" }] }

/-- C8 (counterexample): a diagram with one reference and no tables
serializes to text with **no** reference line — identical to serializing the
same diagram without the reference — refuting "exactly one reference line
for every element of the reference list". -/
theorem refLine_dropped :
    c8dangling.references.length = 1 ∧
    (c8dangling.references.filterMap (refLineOf c8dangling.tables)).length = 0 ∧
    exportToAirDML c8dangling = exportToAirDML { c8dangling with references := [] } := by
  refine ⟨rfl, rfl, ?_⟩
  decide

end SerializerRefLines

section RoundTrip

/-- Comment-free diagram whose only non-default column attribute is a
`default` value — every feature it uses is covered by the grammar. -/
def c2diag : Diagram :=
  { id := "d", name := "d",
    tables := [{ id := "t", name := "t",
                 columns := [{ name := "c", type := "integer", default := some "1" }] }],
    references := [] }

/-- C2 (refuted — code bug): the serialize→parse→lower→serialize round trip
is **not** the identity on the comment-free, grammar-covered diagram
`c2diag`: the parse succeeds, but `transformColumn` never copies the parsed
`default` constraint into the lowered column, so the re-serialized text
lacks the `[default: 1]` attribute and differs from the original. -/
theorem roundtrip_default_dropped :
    (parseAirDML (exportToAirDML c2diag) {} 0 "").success = true ∧
    exportToAirDML
        (((parseAirDML (exportToAirDML c2diag) {} 0 "").diagram).getD emptyDiagram) ≠
      exportToAirDML c2diag ∧
    (∀ t ∈ (((parseAirDML (exportToAirDML c2diag) {} 0 "").diagram).getD
        emptyDiagram).tables, ∀ c ∈ t.columns, c.default = none) ∧
    (∃ t ∈ c2diag.tables, ∃ c ∈ t.columns, c.default = some "1") := by
  decide

end RoundTrip

section FatalLexical

/-- C7: whenever tokenization raises the unterminated-string fatal error, the
parse entry point reports failure, returns no diagram, and its message
contains the `line:column` of the offending position. -/
theorem fatal_lex_error (s : String) (opts : TransformOptions) (nowMs : Nat)
    (nowIso : String) (e : LexError) (htok : tokenize s = .error e)
    (_hunterm : e.msg = "文字列が閉じられていません") :
    (parseAirDML s opts nowMs nowIso).success = false ∧
    (parseAirDML s opts nowMs nowIso).diagram = none ∧
    ∃ m, (parseAirDML s opts nowMs nowIso).error = some m ∧
      (toString e.position.line ++ ":" ++ toString e.position.column).data <:+: m.data := by
  unfold parseAirDML
  rw [htok]
  refine ⟨rfl, rfl, "字句解析エラー: " ++ e.message, rfl, ?_⟩
  refine ⟨"字句解析エラー: ".data ++ ['['], ("] " ++ e.msg).data, ?_⟩
  have hbr : "[".data = ['['] := rfl
  have hcl : ":".data = [':'] := rfl
  simp only [LexError.message, String.data_append, hbr, hcl, List.append_assoc,
    List.cons_append, List.nil_append, List.singleton_append]

/-- Witness for `fatal_lex_error` at the concrete input `"unterminated`. -/
theorem fatal_lex_error_witness :
    (parseAirDML "\"unterminated" {} 0 "").success = false ∧
    (parseAirDML "\"unterminated" {} 0 "").diagram = none ∧
    ∃ m, (parseAirDML "\"unterminated" {} 0 "").error = some m ∧
      (toString (1 : Nat) ++ ":" ++ toString (1 : Nat)).data <:+: m.data :=
  fatal_lex_error "\"unterminated" {} 0 ""
    ⟨"文字列が閉じられていません", ⟨1, 1, 0⟩, some "\"unterminated"⟩ (by rfl) (by rfl)

end FatalLexical

section ColumnIdentifier

/-- The attribute-keyword token types that never begin a column. -/
def attrKeywordTypes : List TokenType :=
  [.COLOR, .POS_X, .POS_Y, .WIDTH, .HEIGHT, .SWAP_EDGE, .DATABASE_TYPE,
   .LABEL_HORIZONTAL, .LABEL_VERTICAL, .COMMON_COLUMNS]

theorem PM_bind_apply {α β : Type} (x : Parser.PM α) (f : α → Parser.PM β) (st : PState) :
    (x >>= f) st =
      match x st with
      | .error e => .error e
      | .ok (a, st') => f a st' := rfl

theorem collectComments_skip (fuel : Nat) (st : PState)
    (h : (Parser.peekT st).type ≠ .LINE_COMMENT) :
    Parser.collectComments fuel st = .ok ((), st) := by
  cases fuel with
  | zero => rfl
  | succ n =>
    have hb : ((Parser.peekT st).type == TokenType.LINE_COMMENT) = false := by
      simpa using h
    simp [Parser.collectComments, PM_bind_apply, Parser.mCheck, hb, Pure.pure]

/-- C9: (a) the table-body loop can recognize a token as the start of a
column declaration exactly when it is an identifier, a double-quoted string,
or one of the non-top-level members of the parser's fixed keyword list; and
(b) a token of one of the attribute-keyword types (`color`, `pos_x`, …,
`commoncolumns`) is skipped by the loop as unknown content: one token
consumed, no column added, no diagnostic raised. -/
theorem column_start_classification :
    (∀ tt : TokenType, Parser.isColumnIdentifierT tt = true ↔
      tt ∈ ([.IDENTIFIER, .STRING, .NOTE, .INDEXES, .PK, .FK, .UNIQUE, .NOT, .NULL,
             .INCREMENT, .DEFAULT, .ALIAS, .NAME] : List TokenType)) ∧
    (∀ (st : PState) (fuel : Nat) (acc : Parser.TableBodyAcc),
      (Parser.peekT st).type ∈ attrKeywordTypes →
      Parser.tableBodyLoop (fuel + 1) acc st = Parser.tableBodyLoop fuel acc (Parser.advSt st)) := by
  constructor
  · intro tt
    cases tt <;> decide
  · intro st fuel acc h
    simp only [attrKeywordTypes, List.mem_cons, List.not_mem_nil, or_false] at h
    have hb2 : Parser.isAtEndSt st = false := by
      unfold Parser.isAtEndSt
      rcases h with h | h | h | h | h | h | h | h | h | h <;> simp [h]
    have hcc := collectComments_skip (2 * st.tokens.length + 2) st
      (by rcases h with h | h | h | h | h | h | h | h | h | h <;> simp [h])
    rcases h with h | h | h | h | h | h | h | h | h | h <;>
      simp [Parser.tableBodyLoop, PM_bind_apply, Parser.mCheck, Parser.mIsAtEnd,
        Parser.mPeek, Parser.mAdvance, Parser.mGas, hb2, hcc, h,
        Parser.isTopLevelKeywordT, Parser.isColumnIdentifierT, Parser.isKeyword,
        Pure.pure]

/-- Witness for `column_start_classification` (b) at a concrete state whose
cursor sits on a `color` token inside a table body. -/
theorem column_start_classification_witness :
    Parser.tableBodyLoop 5 {}
      ⟨[⟨.COLOR, "color", ⟨1, 1, 0⟩, ⟨1, 6, 5⟩⟩, ⟨.EOF, "", ⟨1, 6, 5⟩, ⟨1, 6, 5⟩⟩], 0, [], []⟩ =
    Parser.tableBodyLoop 4 {}
      (Parser.advSt
        ⟨[⟨.COLOR, "color", ⟨1, 1, 0⟩, ⟨1, 6, 5⟩⟩, ⟨.EOF, "", ⟨1, 6, 5⟩, ⟨1, 6, 5⟩⟩], 0, [], []⟩) :=
  column_start_classification.2
    ⟨[⟨.COLOR, "color", ⟨1, 1, 0⟩, ⟨1, 6, 5⟩⟩, ⟨.EOF, "", ⟨1, 6, 5⟩, ⟨1, 6, 5⟩⟩], 0, [], []⟩
    4 {} (by decide)

end ColumnIdentifier

section ErrorRecovery

/-- Tokens the synchronize loop skips over: everything except a closing
brace, a top-level keyword, and EOF. -/
def NotSyncToken (t : TokenType) : Bool :=
  !(t == .RBRACE || Parser.isTopLevelKeywordT t || t == .EOF)

/-- All tokens from `st.pos` (inclusive) to `j` (exclusive) are non-sync
tokens. -/
def SkippedRange (st : PState) (j : Nat) : Prop :=
  ∀ i, st.pos ≤ i → i < j → NotSyncToken ((st.tokens.get? i).getD eofToken).type = true

/-- What `synchronize` does to a state: nothing but the cursor changes, the
cursor never moves backwards, and it stops at end of input, on a top-level
keyword (not consumed), or just past a closing brace (consumed), skipping
only non-sync tokens on the way. -/
def SyncBody (st st' : PState) : Prop :=
  st'.tokens = st.tokens ∧ st'.errors = st.errors ∧
  st'.pendingComments = st.pendingComments ∧ st.pos ≤ st'.pos ∧
  ((Parser.isAtEndSt st' = true ∧ SkippedRange st st'.pos) ∨
   (Parser.isTopLevelKeywordT (Parser.peekT st').type = true ∧ SkippedRange st st'.pos) ∨
   (∃ k, st'.pos = k + 1 ∧ ((st.tokens.get? k).getD eofToken).type = .RBRACE ∧
     SkippedRange st k))

/-- The statement of the synchronization half of the claim. -/
def SyncSpecStatement (st : PState) : Prop := SyncBody st (Parser.synchronize st)

theorem pos_lt_of_not_atEnd {st : PState} (h : Parser.isAtEndSt st = false) :
    st.pos < st.tokens.length := by
  by_contra hge
  push_neg at hge
  have hnone : st.tokens.get? st.pos = none := List.get?_eq_none.mpr hge
  have : Parser.isAtEndSt st = true := by
    unfold Parser.isAtEndSt Parser.peekT
    rw [hnone]
    rfl
  rw [this] at h
  cases h

theorem advSt_of_not_atEnd {st : PState} (h : Parser.isAtEndSt st = false) :
    Parser.advSt st = { st with pos := st.pos + 1 } := by
  unfold Parser.advSt
  rw [h]
  rfl

theorem syncLoop_spec : ∀ (fuel : Nat) (st : PState),
    st.tokens.length + 1 - st.pos ≤ fuel → SyncBody st (Parser.syncLoop fuel st) := by
  intro fuel
  induction fuel with
  | zero =>
    intro st hf
    have hpos : st.tokens.length + 1 ≤ st.pos := by omega
    have hnone : st.tokens.get? st.pos = none := List.get?_eq_none.mpr (by omega)
    have hend : Parser.isAtEndSt st = true := by
      unfold Parser.isAtEndSt Parser.peekT
      rw [hnone]
      rfl
    exact ⟨rfl, rfl, rfl, Nat.le_refl _, Or.inl ⟨by rw [Parser.syncLoop]; exact hend,
      fun i h1 h2 => absurd (Nat.lt_of_le_of_lt h1 h2) (by rw [Parser.syncLoop]; omega)⟩⟩
  | succ n ih =>
    intro st hf
    rw [Parser.syncLoop]
    by_cases h1 : Parser.isAtEndSt st = true
    · rw [if_pos h1]
      exact ⟨rfl, rfl, rfl, Nat.le_refl _,
        Or.inl ⟨h1, fun i ha hb => absurd (Nat.lt_of_le_of_lt ha hb) (Nat.lt_irrefl _)⟩⟩
    · rw [if_neg h1]
      have h1' : Parser.isAtEndSt st = false := by
        cases hx : Parser.isAtEndSt st
        · rfl
        · exact absurd hx h1
      have hlt := pos_lt_of_not_atEnd h1'
      by_cases h2 : ((Parser.peekT st).type == TokenType.RBRACE) = true
      · rw [if_pos h2]
        rw [advSt_of_not_atEnd h1']
        refine ⟨rfl, rfl, rfl, Nat.le_succ _, Or.inr (Or.inr ⟨st.pos, rfl, ?_, ?_⟩)⟩
        · have : (Parser.peekT st).type = .RBRACE := by simpa using h2
          exact this
        · exact fun i ha hb => absurd (Nat.lt_of_le_of_lt ha hb) (Nat.lt_irrefl _)
      · rw [if_neg h2]
        by_cases h3 : Parser.isTopLevelKeywordT (Parser.peekT st).type = true
        · rw [if_pos h3]
          exact ⟨rfl, rfl, rfl, Nat.le_refl _, Or.inr (Or.inl ⟨h3,
            fun i ha hb => absurd (Nat.lt_of_le_of_lt ha hb) (Nat.lt_irrefl _)⟩)⟩
        · rw [if_neg h3]
          have hadv : Parser.advSt st = { st with pos := st.pos + 1 } :=
            advSt_of_not_atEnd h1'
          have hrec := ih (Parser.advSt st) (by rw [hadv]; simp; omega)
          have hcur : NotSyncToken (Parser.peekT st).type = true := by
            unfold NotSyncToken
            have hEOF : ((Parser.peekT st).type == TokenType.EOF) = false := by
              unfold Parser.isAtEndSt at h1'
              simpa using h1'
            have h2' : ((Parser.peekT st).type == TokenType.RBRACE) = false := by
              cases hx : ((Parser.peekT st).type == TokenType.RBRACE)
              · rfl
              · exact absurd hx h2
            have h3' : Parser.isTopLevelKeywordT (Parser.peekT st).type = false := by
              cases hx : Parser.isTopLevelKeywordT (Parser.peekT st).type
              · rfl
              · exact absurd hx h3
            rw [h2', h3', hEOF]
            rfl
          obtain ⟨ht, he, hp, hle, hcase⟩ := hrec
          have htoks : (Parser.advSt st).tokens = st.tokens := by rw [hadv]
      -- transfer from `advSt st` to `st`
          have hskip : ∀ j, SkippedRange (Parser.advSt st) j → SkippedRange st j := by
            intro j hs i ha hb
            rcases Nat.lt_or_ge i (st.pos + 1) with hi | hi
            · have : i = st.pos := by omega
              subst this
              unfold Parser.peekT at hcur
              exact hcur
            · have := hs i (by rw [hadv]; exact hi) hb
              rw [htoks] at this
              exact this
          have hp1 : (Parser.advSt st).pos = st.pos + 1 := by rw [hadv]
          refine ⟨by rw [ht, htoks], by rw [he, hadv], by rw [hp, hadv],
            Nat.le_trans (Nat.le_succ _) (by rw [hp1] at hle; exact hle), ?_⟩
          rcases hcase with ⟨ha, hb⟩ | ⟨ha, hb⟩ | ⟨k, hk, hkt, hb⟩
          · exact Or.inl ⟨ha, hskip _ hb⟩
          · exact Or.inr (Or.inl ⟨ha, hskip _ hb⟩)
          · refine Or.inr (Or.inr ⟨k, hk, ?_, hskip _ hb⟩)
            rw [htoks] at hkt
            exact hkt

/-- The malformed-then-well-formed concrete input of the claim. -/
def c4input : String := "Table broken \x7b\nTable valid \x7b id serial \x7d\n"

/-- C4: (a) on any state, `synchronize` leaves tokens, diagnostics and
pending comments untouched and advances the cursor to EOF, to a top-level
keyword (not consumed), or just past a closing brace (consumed), skipping
only non-sync tokens; (b) parsing `Table broken {` followed by
`Table valid { id serial }` yields exactly the table `valid` and at least
one diagnostic for the broken construct. -/
theorem error_recovery_synchronization :
    (∀ st : PState, SyncSpecStatement st) ∧
    (((tokenize c4input).toOption.map (fun toks =>
      ((Parser.parse toks).1.tables.map (fun t => t.name),
       decide (1 ≤ (Parser.parse toks).2.length)))) = some (["valid"], true)) := by
  constructor
  · intro st
    exact syncLoop_spec (st.tokens.length + 1) st (by omega)
  · decide

/-- Witness for `error_recovery_synchronization` (a) at a concrete state
sitting on a closing brace. -/
theorem error_recovery_synchronization_witness :
    SyncSpecStatement
      ⟨[⟨.RBRACE, "\x7d", ⟨1, 1, 0⟩, ⟨1, 2, 1⟩⟩, ⟨.EOF, "", ⟨1, 2, 1⟩, ⟨1, 2, 1⟩⟩], 0, [], []⟩ :=
  error_recovery_synchronization.1
    ⟨[⟨.RBRACE, "\x7d", ⟨1, 1, 0⟩, ⟨1, 2, 1⟩⟩, ⟨.EOF, "", ⟨1, 2, 1⟩, ⟨1, 2, 1⟩⟩], 0, [], []⟩

end ErrorRecovery

section LexerSpec

variable (src : List Char)

/-- Start offset of a token. -/
def tokOff (t : Token) : Nat := t.start.offset

/-- Lexer-state invariant: cursor within bounds, token start offsets
non-decreasing and bounded by the cursor. -/
def LexInv (len : Nat) (st : LexSt) : Prop :=
  st.pos ≤ len ∧ (st.tokens.map tokOff).Sorted (· ≤ ·) ∧ ∀ t ∈ st.tokens, tokOff t ≤ st.pos

/-- Effect of one scanning step: the cursor moves forward but stays in
bounds, and any appended tokens have start offsets between the old and new
cursor (in order). -/
def LexStep (len : Nat) (st st' : LexSt) : Prop :=
  st.pos ≤ st'.pos ∧ st'.pos ≤ len ∧
  ∃ ts, st'.tokens = st.tokens ++ ts ∧ (ts.map tokOff).Sorted (· ≤ ·) ∧
    ∀ t ∈ ts, st.pos ≤ tokOff t ∧ tokOff t ≤ st'.pos

theorem LexStep.rfl {len : Nat} {st : LexSt} (h : st.pos ≤ len) : LexStep len st st :=
  ⟨Nat.le_refl _, h, [], by simp, by simp, by simp⟩

theorem LexStep.trans {len : Nat} {a b c : LexSt} (h1 : LexStep len a b)
    (h2 : LexStep len b c) : LexStep len a c := by
  obtain ⟨hp1, hb1, ts1, ht1, hs1, hm1⟩ := h1
  obtain ⟨hp2, hb2, ts2, ht2, hs2, hm2⟩ := h2
  refine ⟨Nat.le_trans hp1 hp2, hb2, ts1 ++ ts2, by rw [ht2, ht1, List.append_assoc], ?_, ?_⟩
  · rw [List.map_append]
    refine List.pairwise_append.mpr ⟨hs1, hs2, ?_⟩
    intro x hx y hy
    rcases List.mem_map.mp hx with ⟨t, htm, rfl⟩
    rcases List.mem_map.mp hy with ⟨u, hum, rfl⟩
    exact Nat.le_trans (hm1 t htm).2 (hm2 u hum).1
  · intro t htm
    rcases List.mem_append.mp htm with h | h
    · exact ⟨(hm1 t h).1, Nat.le_trans (hm1 t h).2 hp2⟩
    · exact ⟨Nat.le_trans hp1 (hm2 t h).1, (hm2 t h).2⟩

theorem LexInv.ofStep {len : Nat} {st st' : LexSt} (hi : LexInv len st)
    (hs : LexStep len st st') : LexInv len st' := by
  obtain ⟨hb, hsort, hbound⟩ := hi
  obtain ⟨hp, hb', ts, ht, hs', hm⟩ := hs
  refine ⟨hb', ?_, ?_⟩
  · rw [ht, List.map_append]
    refine List.pairwise_append.mpr ⟨hsort, hs', ?_⟩
    intro x hx y hy
    rcases List.mem_map.mp hx with ⟨t, htm, rfl⟩
    rcases List.mem_map.mp hy with ⟨u, hum, rfl⟩
    exact Nat.le_trans (hbound t htm) (hm u hum).1
  · intro t htm
    rw [ht] at htm
    rcases List.mem_append.mp htm with h | h
    · exact Nat.le_trans (hbound t h) hp
    · exact (hm t h).2

theorem peek_lt {st : LexSt} {c : Char} (h : Lexer.peekCh src st = some c) :
    st.pos < src.length := by
  unfold Lexer.peekCh at h
  rcases List.get?_eq_some.mp h with ⟨hlt, _⟩
  exact hlt

theorem peekNext_lt {st : LexSt} {c : Char} (h : Lexer.peekNextCh src st = some c) :
    st.pos + 1 < src.length := by
  unfold Lexer.peekNextCh at h
  rcases List.get?_eq_some.mp h with ⟨hlt, _⟩
  exact hlt

/-- Effect of a token-free scanning loop. -/
def LoopStep (len : Nat) (st st' : LexSt) : Prop :=
  st.pos ≤ st'.pos ∧ st'.pos ≤ len ∧ st'.tokens = st.tokens

theorem LoopStep.toLexStep {len : Nat} {st st' : LexSt} (h : LoopStep len st st') :
    LexStep len st st' :=
  ⟨h.1, h.2.1, [], by simp [h.2.2], by simp, by simp⟩

theorem skipWhitespace_loopStep :
    ∀ (fuel : Nat) (st : LexSt), st.pos ≤ src.length →
      LoopStep src.length st (Lexer.skipWhitespace src fuel st) := by
  intro fuel
  induction fuel with
  | zero => intro st h; exact ⟨Nat.le_refl _, h, rfl⟩
  | succ n ih =>
    intro st h
    simp only [Lexer.skipWhitespace]
    cases hc : Lexer.peekCh src st with
    | none => exact ⟨Nat.le_refl _, h, rfl⟩
    | some c =>
      dsimp only
      have hlt := peek_lt src hc
      by_cases h1 : (c = ' ' || c = '\t' || c = '\r') = true
      · rw [if_pos h1]
        have := ih (Lexer.bump st) hlt
        exact ⟨Nat.le_trans (Nat.le_succ _) this.1, this.2.1, this.2.2⟩
      · rw [if_neg h1]
        by_cases h2 : c = '\n'
        · rw [if_pos h2]
          have := ih { st with pos := st.pos + 1, line := st.line + 1, column := 1 } hlt
          exact ⟨Nat.le_trans (Nat.le_succ _) this.1, this.2.1, this.2.2⟩
        · rw [if_neg h2]
          exact ⟨Nat.le_refl _, h, rfl⟩

theorem commentLoop_loopStep :
    ∀ (fuel : Nat) (acc : List Char) (st : LexSt), st.pos ≤ src.length →
      LoopStep src.length st (Lexer.commentLoop src fuel acc st).2 := by
  intro fuel
  induction fuel with
  | zero => intro acc st h; exact ⟨Nat.le_refl _, h, rfl⟩
  | succ n ih =>
    intro acc st h
    rw [Lexer.commentLoop]
    cases hc : Lexer.peekCh src st with
    | none => exact ⟨Nat.le_refl _, h, rfl⟩
    | some c =>
      dsimp only
      have hlt := peek_lt src hc
      by_cases h1 : c = '\n'
      · rw [if_pos h1]
        exact ⟨Nat.le_refl _, h, rfl⟩
      · rw [if_neg h1]
        have := ih (acc ++ [c]) (Lexer.bump st) hlt
        exact ⟨Nat.le_trans (Nat.le_succ _) this.1, this.2.1, this.2.2⟩

theorem stringLoop_loopStep (quote : Char) :
    ∀ (fuel : Nat) (acc : List Char) (st : LexSt), st.pos ≤ src.length →
      LoopStep src.length st (Lexer.stringLoop src quote fuel acc st).2 := by
  intro fuel
  induction fuel with
  | zero => intro acc st h; exact ⟨Nat.le_refl _, h, rfl⟩
  | succ n ih =>
    intro acc st h
    rw [Lexer.stringLoop]
    cases hc : Lexer.peekCh src st with
    | none => exact ⟨Nat.le_refl _, h, rfl⟩
    | some c =>
      dsimp only
      have hlt := peek_lt src hc
      by_cases h1 : c = quote
      · rw [if_pos h1]
        exact ⟨Nat.le_refl _, h, rfl⟩
      · rw [if_neg h1]
        by_cases h2 : c = '\n'
        · rw [if_pos h2]
          have := ih (acc ++ [c]) { st with pos := st.pos + 1, line := st.line + 1, column := 2 } hlt
          exact ⟨Nat.le_trans (Nat.le_succ _) this.1, this.2.1, this.2.2⟩
        · rw [if_neg h2]
          by_cases h3 : c = '\\'
          · rw [if_pos h3]
            cases hc2 : Lexer.peekCh src (Lexer.bump st) with
            | none =>
              dsimp only
              have := ih acc (Lexer.bump st) hlt
              exact ⟨Nat.le_trans (Nat.le_succ _) this.1, this.2.1, this.2.2⟩
            | some e =>
              dsimp only
              have hlt2 := peek_lt src hc2
              have := ih (acc ++ [if e = 'n' then '\n' else if e = 't' then '\t'
                else if e = 'r' then '\r' else e]) (Lexer.bump (Lexer.bump st)) hlt2
              refine ⟨?_, this.2.1, this.2.2⟩
              exact Nat.le_trans (Nat.le_trans (Nat.le_succ _) (Nat.le_succ _)) this.1
          · rw [if_neg h3]
            have := ih (acc ++ [c]) (Lexer.bump st) hlt
            exact ⟨Nat.le_trans (Nat.le_succ _) this.1, this.2.1, this.2.2⟩

theorem digitsLoop_loopStep :
    ∀ (fuel : Nat) (acc : List Char) (st : LexSt), st.pos ≤ src.length →
      LoopStep src.length st (Lexer.digitsLoop src fuel acc st).2 := by
  intro fuel
  induction fuel with
  | zero => intro acc st h; exact ⟨Nat.le_refl _, h, rfl⟩
  | succ n ih =>
    intro acc st h
    rw [Lexer.digitsLoop]
    cases hc : Lexer.peekCh src st with
    | none => exact ⟨Nat.le_refl _, h, rfl⟩
    | some c =>
      dsimp only
      have hlt := peek_lt src hc
      by_cases h1 : Lexer.isDigitC c = true
      · rw [if_pos h1]
        have := ih (acc ++ [c]) (Lexer.bump st) hlt
        exact ⟨Nat.le_trans (Nat.le_succ _) this.1, this.2.1, this.2.2⟩
      · rw [if_neg h1]
        exact ⟨Nat.le_refl _, h, rfl⟩

theorem identLoop_loopStep :
    ∀ (fuel : Nat) (acc : List Char) (st : LexSt), st.pos ≤ src.length →
      LoopStep src.length st (Lexer.identLoop src fuel acc st).2 := by
  intro fuel
  induction fuel with
  | zero => intro acc st h; exact ⟨Nat.le_refl _, h, rfl⟩
  | succ n ih =>
    intro acc st h
    rw [Lexer.identLoop]
    cases hc : Lexer.peekCh src st with
    | none => exact ⟨Nat.le_refl _, h, rfl⟩
    | some c =>
      dsimp only
      have hlt := peek_lt src hc
      by_cases h1 : Lexer.isIdentifierPartC c = true
      · rw [if_pos h1]
        have := ih (acc ++ [c]) (Lexer.bump st) hlt
        exact ⟨Nat.le_trans (Nat.le_succ _) this.1, this.2.1, this.2.2⟩
      · rw [if_neg h1]
        exact ⟨Nat.le_refl _, h, rfl⟩

theorem hexLoop_loopStep :
    ∀ (fuel : Nat) (acc : List Char) (st : LexSt), st.pos ≤ src.length →
      LoopStep src.length st (Lexer.hexLoop src fuel acc st).2 := by
  intro fuel
  induction fuel with
  | zero => intro acc st h; exact ⟨Nat.le_refl _, h, rfl⟩
  | succ n ih =>
    intro acc st h
    rw [Lexer.hexLoop]
    cases hc : Lexer.peekCh src st with
    | none => exact ⟨Nat.le_refl _, h, rfl⟩
    | some c =>
      dsimp only
      have hlt := peek_lt src hc
      by_cases h1 : Lexer.isHexDigitC c = true
      · rw [if_pos h1]
        have := ih (acc ++ [c]) (Lexer.bump st) hlt
        exact ⟨Nat.le_trans (Nat.le_succ _) this.1, this.2.1, this.2.2⟩
      · rw [if_neg h1]
        exact ⟨Nat.le_refl _, h, rfl⟩

theorem addToken_step {len : Nat} {st₀ st : LexSt} (ty : TokenType) (v : String)
    (start : SourcePosition) (hoff : start.offset = st₀.pos) (hp : st₀.pos ≤ st.pos)
    (hl : st.pos ≤ len) (htok : st.tokens = st₀.tokens) :
    LexStep len st₀ (Lexer.addToken ty v start st) := by
  have hpos : (Lexer.addToken ty v start st).pos = st.pos := rfl
  refine ⟨by omega, by omega, [⟨ty, v, start, Lexer.currentPosition st⟩], ?_, ?_, ?_⟩
  · simp [Lexer.addToken, htok]
  · simp [List.sorted_singleton]
  · intro t ht
    rcases List.mem_singleton.mp ht with rfl
    have hto : tokOff ⟨ty, v, start, Lexer.currentPosition st⟩ = start.offset := rfl
    constructor
    · omega
    · omega

theorem scanLineComment_step (fuel : Nat) {st : LexSt} (h : st.pos + 1 < src.length) :
    LexStep src.length st (Lexer.scanLineComment src fuel st) ∧
      st.pos < (Lexer.scanLineComment src fuel st).pos := by
  have hbb : (Lexer.bump (Lexer.bump st)).pos = st.pos + 2 := rfl
  obtain ⟨hcl1, hcl2, hcl3⟩ :=
    commentLoop_loopStep src fuel [] (Lexer.bump (Lexer.bump st)) (by omega)
  constructor
  · exact addToken_step _ _ _ rfl (by omega) hcl2 hcl3
  · show st.pos < (Lexer.commentLoop src fuel [] (Lexer.bump (Lexer.bump st))).2.pos
    omega

theorem scanString_step (fuel : Nat) (quote : Char) (ty : TokenType) {st st' : LexSt}
    (h : st.pos < src.length) (hok : Lexer.scanString src fuel quote ty st = .ok st') :
    LexStep src.length st st' ∧ st.pos < st'.pos := by
  unfold Lexer.scanString at hok
  dsimp only at hok
  have hb : (Lexer.bump st).pos = st.pos + 1 := rfl
  obtain ⟨hsl1, hsl2, hsl3⟩ :=
    stringLoop_loopStep src quote fuel [] (Lexer.bump st) (by omega)
  split at hok
  · cases hok
  · rename_i hend
    cases hok
    have hlt : (Lexer.stringLoop src quote fuel [] (Lexer.bump st)).2.pos < src.length := by
      unfold Lexer.isAtEnd at hend
      simpa using hend
    have hb2 : (Lexer.bump (Lexer.stringLoop src quote fuel [] (Lexer.bump st)).2).pos =
        (Lexer.stringLoop src quote fuel [] (Lexer.bump st)).2.pos + 1 := rfl
    constructor
    · exact addToken_step _ _ _ rfl (by omega) (by omega) hsl3
    · show st.pos < (Lexer.bump (Lexer.stringLoop src quote fuel [] (Lexer.bump st)).2).pos
      omega

theorem digitsLoop_progress (fuel : Nat) (acc : List Char) {st : LexSt}
    (hd : Lexer.isDigitO (Lexer.peekCh src st) = true) (hfuel : 0 < fuel) :
    st.pos + 1 ≤ (Lexer.digitsLoop src fuel acc st).2.pos := by
  cases fuel with
  | zero => omega
  | succ n =>
    rw [Lexer.digitsLoop]
    cases hc : Lexer.peekCh src st with
    | none => rw [hc] at hd; cases hd
    | some c =>
      dsimp only
      rw [hc] at hd
      have hd' : Lexer.isDigitC c = true := hd
      rw [if_pos hd']
      obtain ⟨hl1, hl2, hl3⟩ :=
        digitsLoop_loopStep src n (acc ++ [c]) (Lexer.bump st) (peek_lt src hc)
      have hb : (Lexer.bump st).pos = st.pos + 1 := rfl
      omega

theorem scanNumberBody_step (fuel : Nat) (start : SourcePosition) (sign : List Char)
    (st₀ st1 : LexSt) (hoff : start.offset = st₀.pos) (hp : st₀.pos ≤ st1.pos)
    (hl : st1.pos ≤ src.length) (htok : st1.tokens = st₀.tokens) :
    LexStep src.length st₀ (Lexer.scanNumberBody src fuel start sign st1) ∧
      st1.pos ≤ (Lexer.scanNumberBody src fuel start sign st1).pos := by
  unfold Lexer.scanNumberBody
  obtain ⟨hd11, hd12, hd13⟩ := digitsLoop_loopStep src fuel sign st1 hl
  by_cases hf : ((Lexer.peekCh src (Lexer.digitsLoop src fuel sign st1).2 == some '.') &&
      Lexer.isDigitO (Lexer.peekNextCh src (Lexer.digitsLoop src fuel sign st1).2)) = true
  · rw [if_pos hf]
    have hdot : Lexer.peekCh src (Lexer.digitsLoop src fuel sign st1).2 = some '.' := by
      have hf2 := hf
      simp only [Bool.and_eq_true] at hf2
      simpa using hf2.1
    have hlt2 := peek_lt src hdot
    have hbb : (Lexer.bump (Lexer.digitsLoop src fuel sign st1).2).pos =
        (Lexer.digitsLoop src fuel sign st1).2.pos + 1 := rfl
    obtain ⟨hd21, hd22, hd23⟩ := digitsLoop_loopStep src fuel
      ((Lexer.digitsLoop src fuel sign st1).1 ++ ['.'])
      (Lexer.bump (Lexer.digitsLoop src fuel sign st1).2) (by omega)
    have htk : (Lexer.digitsLoop src fuel ((Lexer.digitsLoop src fuel sign st1).1 ++ ['.'])
        (Lexer.bump (Lexer.digitsLoop src fuel sign st1).2)).2.tokens = st₀.tokens := by
      rw [hd23]
      show (Lexer.digitsLoop src fuel sign st1).2.tokens = st₀.tokens
      rw [hd13, htok]
    refine ⟨addToken_step _ _ _ hoff (by omega) hd22 htk, ?_⟩
    show st1.pos ≤ (Lexer.digitsLoop src fuel _ _).2.pos
    omega
  · rw [if_neg hf]
    have htk : (Lexer.digitsLoop src fuel sign st1).2.tokens = st₀.tokens := by
      rw [hd13, htok]
    refine ⟨addToken_step _ _ _ hoff (by omega) hd12 htk, ?_⟩
    show st1.pos ≤ (Lexer.digitsLoop src fuel _ _).2.pos
    omega

theorem scanNumber_step (fuel : Nat) {st : LexSt} (h : st.pos ≤ src.length) :
    LexStep src.length st (Lexer.scanNumber src fuel st) := by
  unfold Lexer.scanNumber
  by_cases hs : (Lexer.peekCh src st == some '-') = true
  · rw [if_pos hs]
    have hlt : st.pos < src.length := peek_lt src (by simpa using hs)
    exact (scanNumberBody_step src fuel _ ['-'] st (Lexer.bump st) rfl (Nat.le_succ _) hlt rfl).1
  · rw [if_neg hs]
    exact (scanNumberBody_step src fuel _ [] st st rfl (Nat.le_refl _) h rfl).1

theorem scanNumberBody_progress (fuel : Nat) (start : SourcePosition) (sign : List Char)
    {st1 : LexSt} (hd : Lexer.isDigitO (Lexer.peekCh src st1) = true) (hfuel : 0 < fuel) :
    st1.pos < (Lexer.scanNumberBody src fuel start sign st1).pos := by
  have hlt : st1.pos < src.length := by
    cases hc : Lexer.peekCh src st1 with
    | none => rw [hc] at hd; cases hd
    | some c => exact peek_lt src hc
  have hp1 := digitsLoop_progress src fuel sign hd hfuel
  unfold Lexer.scanNumberBody
  obtain ⟨hd11, hd12, hd13⟩ := digitsLoop_loopStep src fuel sign st1 (by omega)
  by_cases hf : ((Lexer.peekCh src (Lexer.digitsLoop src fuel sign st1).2 == some '.') &&
      Lexer.isDigitO (Lexer.peekNextCh src (Lexer.digitsLoop src fuel sign st1).2)) = true
  · rw [if_pos hf]
    have hdot : Lexer.peekCh src (Lexer.digitsLoop src fuel sign st1).2 = some '.' := by
      have hf2 := hf
      simp only [Bool.and_eq_true] at hf2
      simpa using hf2.1
    have hlt2 := peek_lt src hdot
    have hbb : (Lexer.bump (Lexer.digitsLoop src fuel sign st1).2).pos =
        (Lexer.digitsLoop src fuel sign st1).2.pos + 1 := rfl
    obtain ⟨hd21, hd22, hd23⟩ := digitsLoop_loopStep src fuel
      ((Lexer.digitsLoop src fuel sign st1).1 ++ ['.'])
      (Lexer.bump (Lexer.digitsLoop src fuel sign st1).2) (by omega)
    show st1.pos < (Lexer.digitsLoop src fuel _ _).2.pos
    omega
  · rw [if_neg hf]
    show st1.pos < (Lexer.digitsLoop src fuel _ _).2.pos
    omega

theorem scanNumber_progress (fuel : Nat) {st : LexSt}
    (hg : Lexer.isDigitO (Lexer.peekCh src st) = true ∨ Lexer.peekCh src st = some '-')
    (hfuel : 0 < fuel) :
    st.pos < (Lexer.scanNumber src fuel st).pos := by
  unfold Lexer.scanNumber
  by_cases hs : (Lexer.peekCh src st == some '-') = true
  · rw [if_pos hs]
    have hlt : st.pos < src.length := peek_lt src (by simpa using hs)
    have := (scanNumberBody_step src fuel (Lexer.currentPosition st) ['-'] st (Lexer.bump st)
      rfl (Nat.le_succ _) hlt rfl).2
    have hb : (Lexer.bump st).pos = st.pos + 1 := rfl
    omega
  · rw [if_neg hs]
    have hd : Lexer.isDigitO (Lexer.peekCh src st) = true := by
      rcases hg with hg | hg
      · exact hg
      · exact absurd (by simp [hg]) hs
    exact scanNumberBody_progress src fuel _ [] hd hfuel

theorem identLoop_progress (fuel : Nat) (acc : List Char) {st : LexSt} {c : Char}
    (hc : Lexer.peekCh src st = some c) (hp : Lexer.isIdentifierPartC c = true)
    (hfuel : 0 < fuel) :
    st.pos + 1 ≤ (Lexer.identLoop src fuel acc st).2.pos := by
  cases fuel with
  | zero => omega
  | succ n =>
    rw [Lexer.identLoop]
    rw [hc]
    dsimp only
    rw [if_pos hp]
    obtain ⟨hl1, hl2, hl3⟩ :=
      identLoop_loopStep src n (acc ++ [c]) (Lexer.bump st) (peek_lt src hc)
    have hb : (Lexer.bump st).pos = st.pos + 1 := rfl
    omega

theorem scanIdentifier_step (fuel : Nat) {st : LexSt} (h : st.pos ≤ src.length) :
    LexStep src.length st (Lexer.scanIdentifier src fuel st) := by
  obtain ⟨hil1, hil2, hil3⟩ := identLoop_loopStep src fuel [] st h
  exact addToken_step _ _ _ rfl hil1 hil2 hil3

theorem scanIdentifier_progress (fuel : Nat) {st : LexSt} {c : Char}
    (hc : Lexer.peekCh src st = some c) (hp : Lexer.isIdentifierStartC c = true)
    (hfuel : 0 < fuel) :
    st.pos < (Lexer.scanIdentifier src fuel st).pos := by
  have := identLoop_progress src fuel [] hc (by simp [Lexer.isIdentifierPartC, hp]) hfuel
  show st.pos < (Lexer.identLoop src fuel [] st).2.pos
  omega

theorem scanColorLiteral_spec (fuel : Nat) (start : SourcePosition) {st st' : LexSt}
    (hok : Lexer.scanColorLiteral src fuel start st = .ok st') :
    st' = Lexer.addToken .STRING ('#' :: (Lexer.hexLoop src fuel [] st).1).asString start
      (Lexer.hexLoop src fuel [] st).2 := by
  unfold Lexer.scanColorLiteral at hok
  dsimp only at hok
  split at hok
  · cases hok
  · cases hok
    rfl

theorem scanSymbol_spec (fuel : Nat) {st st' : LexSt} {ch : Char}
    (hpk : Lexer.peekCh src st = some ch) (hfuel : 0 < fuel)
    (hok : Lexer.scanSymbol src fuel st = .ok st') :
    LexStep src.length st st' ∧ st.pos < st'.pos := by
  have hlt : st.pos < src.length := peek_lt src hpk
  unfold Lexer.scanSymbol at hok
  rw [hpk] at hok
  dsimp only at hok
  by_cases h1 : ch = '{'
  · rw [if_pos h1] at hok
    cases hok
    exact ⟨addToken_step _ _ _ rfl (Nat.le_succ _) hlt rfl, Nat.lt_succ_self _⟩
  · rw [if_neg h1] at hok
    by_cases h2 : ch = '}'
    · rw [if_pos h2] at hok
      cases hok
      exact ⟨addToken_step _ _ _ rfl (Nat.le_succ _) hlt rfl, Nat.lt_succ_self _⟩
    · rw [if_neg h2] at hok
      by_cases h3 : ch = '['
      · rw [if_pos h3] at hok
        cases hok
        exact ⟨addToken_step _ _ _ rfl (Nat.le_succ _) hlt rfl, Nat.lt_succ_self _⟩
      · rw [if_neg h3] at hok
        by_cases h4 : ch = ']'
        · rw [if_pos h4] at hok
          cases hok
          exact ⟨addToken_step _ _ _ rfl (Nat.le_succ _) hlt rfl, Nat.lt_succ_self _⟩
        · rw [if_neg h4] at hok
          by_cases h5 : ch = '('
          · rw [if_pos h5] at hok
            cases hok
            exact ⟨addToken_step _ _ _ rfl (Nat.le_succ _) hlt rfl, Nat.lt_succ_self _⟩
          · rw [if_neg h5] at hok
            by_cases h6 : ch = ')'
            · rw [if_pos h6] at hok
              cases hok
              exact ⟨addToken_step _ _ _ rfl (Nat.le_succ _) hlt rfl, Nat.lt_succ_self _⟩
            · rw [if_neg h6] at hok
              by_cases h7 : ch = ':'
              · rw [if_pos h7] at hok
                cases hok
                exact ⟨addToken_step _ _ _ rfl (Nat.le_succ _) hlt rfl, Nat.lt_succ_self _⟩
              · rw [if_neg h7] at hok
                by_cases h8 : ch = ','
                · rw [if_pos h8] at hok
                  cases hok
                  exact ⟨addToken_step _ _ _ rfl (Nat.le_succ _) hlt rfl, Nat.lt_succ_self _⟩
                · rw [if_neg h8] at hok
                  by_cases h9 : ch = '.'
                  · rw [if_pos h9] at hok
                    cases hok
                    exact ⟨addToken_step _ _ _ rfl (Nat.le_succ _) hlt rfl, Nat.lt_succ_self _⟩
                  · rw [if_neg h9] at hok
                    by_cases h10 : ch = '>'
                    · rw [if_pos h10] at hok
                      cases hok
                      exact ⟨addToken_step _ _ _ rfl (Nat.le_succ _) hlt rfl, Nat.lt_succ_self _⟩
                    · rw [if_neg h10] at hok
                      by_cases h11 : ch = '<'
                      · rw [if_pos h11] at hok
                        by_cases hgt : (Lexer.peekCh src (Lexer.bump st) == some '>') = true
                        · rw [if_pos hgt] at hok
                          cases hok
                          have hlt2 : st.pos + 1 < src.length :=
                            peek_lt src (show Lexer.peekCh src (Lexer.bump st) = some '>' by
                              simpa using hgt)
                          exact ⟨addToken_step _ _ _ rfl ((by omega : st.pos ≤ st.pos + 2)) hlt2 rfl,
                            (by omega : st.pos < st.pos + 2)⟩
                        · rw [if_neg hgt] at hok
                          cases hok
                          exact ⟨addToken_step _ _ _ rfl (Nat.le_succ _) hlt rfl, Nat.lt_succ_self _⟩
                      · rw [if_neg h11] at hok
                        by_cases h12 : ch = '-'
                        · rw [if_pos h12] at hok
                          by_cases hd : Lexer.isDigitO (Lexer.peekCh src (Lexer.bump st)) = true
                          · rw [if_pos hd] at hok
                            cases hok
                            have hpk2 : Lexer.peekCh src st = some '-' := by
                              rw [hpk, h12]
                            constructor
                            · exact scanNumber_step src fuel (Nat.le_of_lt hlt)
                            · exact scanNumber_progress src fuel (Or.inr hpk2) hfuel
                          · rw [if_neg hd] at hok
                            cases hok
                            exact ⟨addToken_step _ _ _ rfl (Nat.le_succ _) hlt rfl, Nat.lt_succ_self _⟩
                        · rw [if_neg h12] at hok
                          by_cases h13 : ch = '~'
                          · rw [if_pos h13] at hok
                            cases hok
                            exact ⟨addToken_step _ _ _ rfl (Nat.le_succ _) hlt rfl, Nat.lt_succ_self _⟩
                          · rw [if_neg h13] at hok
                            by_cases h14 : ch = '#'
                            · rw [if_pos h14] at hok
                              have hcs := scanColorLiteral_spec src fuel _ hok
                              subst hcs
                              obtain ⟨hx1, hx2, hx3⟩ := hexLoop_loopStep src fuel [] (Lexer.bump st) hlt
                              have hb : (Lexer.bump st).pos = st.pos + 1 := rfl
                              refine ⟨addToken_step _ _ _ rfl (by omega) hx2 ?_, ?_⟩
                              · rw [hx3]
                                rfl
                              · show st.pos < (Lexer.hexLoop src fuel [] (Lexer.bump st)).2.pos
                                omega
                            · rw [if_neg h14] at hok
                              exact Except.noConfusion hok

theorem scanToken_spec (fuel : Nat) {st st' : LexSt} (h : st.pos ≤ src.length)
    (hfuel : 0 < fuel) (hok : Lexer.scanToken src fuel st = .ok st') :
    LexStep src.length st st' ∧ (st.pos < src.length → st.pos < st'.pos) := by
  unfold Lexer.scanToken at hok
  dsimp only at hok
  obtain ⟨hw1, hw2, hw3⟩ := skipWhitespace_loopStep src fuel st h
  have hwStep : LexStep src.length st (Lexer.skipWhitespace src fuel st) :=
    LoopStep.toLexStep ⟨hw1, hw2, hw3⟩
  cases hpk : Lexer.peekCh src (Lexer.skipWhitespace src fuel st) with
  | none =>
    rw [hpk] at hok
    cases hok
    refine ⟨hwStep, ?_⟩
    intro hl
    have : src.length ≤ (Lexer.skipWhitespace src fuel st).pos := by
      unfold Lexer.peekCh at hpk
      exact List.get?_eq_none.mp hpk
    omega
  | some ch =>
    rw [hpk] at hok
    dsimp only at hok
    have hltw : (Lexer.skipWhitespace src fuel st).pos < src.length := peek_lt src hpk
    split at hok
    · -- line comment
      rename_i hg
      cases hok
      have hg2 : Lexer.peekNextCh src (Lexer.skipWhitespace src fuel st) = some '/' := by
        simp only [Bool.and_eq_true] at hg
        simpa using hg.2
      have hlt2 : (Lexer.skipWhitespace src fuel st).pos + 1 < src.length :=
        peekNext_lt src hg2
      obtain ⟨hls, hstrict⟩ := scanLineComment_step src fuel hlt2
      exact ⟨hwStep.trans hls, fun _ => by omega⟩
    · split at hok
      · obtain ⟨hls, hstrict⟩ := scanString_step src fuel '"' .STRING hltw hok
        exact ⟨hwStep.trans hls, fun _ => by omega⟩
      · split at hok
        · obtain ⟨hls, hstrict⟩ := scanString_step src fuel squote .SINGLE_STRING hltw hok
          exact ⟨hwStep.trans hls, fun _ => by omega⟩
        · split at hok
          · obtain ⟨hls, hstrict⟩ := scanString_step src fuel backquote .BACKTICK_STRING hltw hok
            exact ⟨hwStep.trans hls, fun _ => by omega⟩
          · split at hok
            · -- number
              rename_i hg
              cases hok
              have hg' : Lexer.isDigitO (Lexer.peekCh src (Lexer.skipWhitespace src fuel st)) =
                  true ∨ Lexer.peekCh src (Lexer.skipWhitespace src fuel st) = some '-' := by
                simp only [Bool.or_eq_true, Bool.and_eq_true] at hg
                rcases hg with hg | ⟨hg1, _⟩
                · left
                  rw [hpk]
                  exact hg
                · right
                  rw [hpk]
                  have : ch = '-' := by simpa using hg1
                  rw [this]
              have hstrict := scanNumber_progress src fuel hg' hfuel
              have hstep := scanNumber_step src fuel (Nat.le_of_lt hltw)
              exact ⟨hwStep.trans hstep, fun _ => by omega⟩
            · split at hok
              · -- identifier
                rename_i hg
                cases hok
                have hstrict := scanIdentifier_progress src fuel hpk (by simpa using hg) hfuel
                have hstep := scanIdentifier_step src fuel (Nat.le_of_lt hltw)
                exact ⟨hwStep.trans hstep, fun _ => by omega⟩
              · -- symbol
                obtain ⟨hls, hstrict⟩ := scanSymbol_spec src fuel hpk hfuel hok
                exact ⟨hwStep.trans hls, fun _ => by omega⟩

theorem tokenizeLoop_inv : ∀ (fuel : Nat) (st : LexSt), LexInv src.length st →
    ∀ st', Lexer.tokenizeLoop src fuel st = .ok st' → LexInv src.length st' := by
  intro fuel
  induction fuel with
  | zero =>
    intro st hi st' hok
    cases hok
    exact hi
  | succ n ih =>
    intro st hi st' hok
    rw [Lexer.tokenizeLoop] at hok
    by_cases hend : src.length ≤ st.pos
    · rw [if_pos hend] at hok
      cases hok
      exact hi
    · rw [if_neg hend] at hok
      cases hsc : Lexer.scanToken src (src.length + 1) st with
      | error e => rw [hsc] at hok; cases hok
      | ok st1 =>
        rw [hsc] at hok
        have hspec := scanToken_spec src (src.length + 1) hi.1 (by omega) hsc
        exact ih st1 (hi.ofStep hspec.1) st' hok

end LexerSpec

/-- C3: `tokenize` either raises a single fatal lexical error (returning no
token list at all) or returns a token sequence whose last element is the EOF
token, whose token start offsets are non-decreasing across the sequence, and
whose offsets never exceed the input length. -/
theorem tokenize_spec (source : String) :
    (∃ e, tokenize source = .error e) ∨
    (∃ ts, tokenize source = .ok ts ∧ ts ≠ [] ∧
      (∃ tk, ts.getLast? = some tk ∧ tk.type = .EOF) ∧
      (ts.map tokOff).Sorted (· ≤ ·) ∧
      ∀ t ∈ ts, tokOff t ≤ source.length) := by
  unfold tokenize
  cases hlp : Lexer.tokenizeLoop source.data (source.data.length + 1) ⟨0, 1, 1, []⟩ with
  | error e =>
    left
    exact ⟨e, by simp only [hlp]⟩
  | ok st =>
    right
    have hinv : LexInv source.data.length st :=
      tokenizeLoop_inv source.data (source.data.length + 1) ⟨0, 1, 1, []⟩
        ⟨Nat.zero_le _, by simp, by simp⟩ st hlp
    obtain ⟨hb, hsort, hbound⟩ := hinv
    refine ⟨(Lexer.addToken .EOF "" (Lexer.currentPosition st) st).tokens,
      by simp only [hlp], ?_, ?_, ?_, ?_⟩
    · show st.tokens ++ [_] ≠ []
      simp
    · refine ⟨⟨.EOF, "", Lexer.currentPosition st, Lexer.currentPosition st⟩, ?_, rfl⟩
      show (st.tokens ++ [_]).getLast? = _
      rw [List.getLast?_concat]
    · show ((st.tokens ++ [_]).map tokOff).Sorted (· ≤ ·)
      rw [List.map_append]
      refine List.pairwise_append.mpr ⟨hsort, by simp, ?_⟩
      intro x hx y hy
      rcases List.mem_map.mp hx with ⟨t, htm, rfl⟩
      rcases List.mem_map.mp hy with ⟨u, hum, rfl⟩
      rcases List.mem_singleton.mp hum with rfl
      exact hbound t htm
    · intro t htm
      have : t ∈ st.tokens ++ [(⟨.EOF, "", Lexer.currentPosition st,
        Lexer.currentPosition st⟩ : Token)] := htm
      rcases List.mem_append.mp this with h | h
      · exact Nat.le_trans (hbound t h) hb
      · rcases List.mem_singleton.mp h with rfl
        exact hb

end AirDML
